import Mathlib

/-!
Shallow embedding of the fast-parser library (grammar compiler, static
validator and PEG matching engine from src/grammar.ts, DSL lexer from
grammar-lexer.ts and DSL parser from grammar-parser.ts), together with
theorems settling the specification claims.

Machine conventions of the embedding:
* string positions are character indices (`Nat`), the furthest-failure
  position `errPos` is an `Int` because the source initialises it to -1;
* JavaScript regular expressions are opaque: a regex is kept as its
  pattern string and the engine receives a semantics function `Rx`
  mapping (pattern, input, position) to an optional (matched text,
  new position), mirroring a sticky `exec`;
* the `noMatch` sentinel is `Option.none` in the engine's result;
  a thrown exception (missing action function, undefined rule, fuel
  exhaustion) is `Option.none` at the outer level;
* predicate functions follow the declared `PredicateFn` type of
  src/index.ts: `(value, prev) => string | null`, with JavaScript
  truthiness (the empty string counts as no error).
-/

/-- Characters that are awkward inside Lean character literals. -/
def quoteC : Char := Char.ofNat 39

def bslashC : Char := Char.ofNat 92

def nlC : Char := Char.ofNat 10

/-- JavaScript `\s` for the inputs exercised here (space, tab, CR, LF). -/
def jsIsWS (c : Char) : Bool := c = ' ' || c = Char.ofNat 9 || c = Char.ofNat 13 || c = nlC

/-- `String.prototype.substring(a, b)` with both ends clamped to the string
and swapped when out of order. -/
def jsSubstring (s : String) (a b : Int) : String :=
  let n : Int := (s.data.length : Int)
  let a' := (max 0 (min a n)).toNat
  let b' := (max 0 (min b n)).toNat
  let lo := min a' b'
  let hi := max a' b'
  ⟨(s.data.drop lo).take (hi - lo)⟩

/-- index of character `c` in `cs` at or after `start`, -1 when absent
(`String.prototype.indexOf`). -/
def idxFrom (cs : List Char) (c : Char) (start : Nat) : Int :=
  match (cs.drop start).findIdx? (· = c) with
  | some i => (start : Int) + (i : Int)
  | none => -1

/-- The line-finding loop of `errorMessage` in grammar-lexer.ts:
given the current (lpos, pos, ln) it advances to the line containing
`errpos` and returns the final (lpos, pos, ln). -/
def emLoop : Nat → List Char → Int → Nat × Int × Nat → Nat × Int × Nat
  | 0, _, _, st => st
  | fuel + 1, cs, errpos, (lpos, pos, ln) =>
    if pos < errpos then
      let lpos' := (pos + 1).toNat
      let i := idxFrom cs nlC lpos'
      if i < 0 then (lpos', (cs.length : Int), ln + 1)
      else emLoop fuel cs errpos (lpos', i, ln + 1)
    else (lpos, pos, ln)

/-- The tail appended to the message by `errorMessage`. -/
def emTail (src : String) (errpos : Int) : String :=
  let cs := src.data
  let (lpos, pos, ln) := emLoop (cs.length + 2) cs errpos (0, -1, 0)
  let indent : String := ⟨List.replicate (errpos - (lpos : Int)).toNat ' '⟩
  ", line " ++ (toString ln ++ (":\n    " ++ (jsSubstring src (lpos : Int) pos ++ ("\n    " ++ (indent ++ "^")))))

/-- `errorMessage(msg, src, errpos)` of grammar-lexer.ts. -/
def errorMessage (msg : String) (src : String) (errpos : Int) : String :=
  msg ++ emTail src errpos

/-- `joinUp(words, withAnd)` of grammar.ts.  Popping the last element of an
empty JavaScript array yields `undefined`, which would be rendered as the
string "undefined". -/
def joinUp (words : List String) (withAnd : Bool) : String :=
  let sep := if withAnd then " and " else " or "
  match words.getLast? with
  | none => "undefined"
  | some last =>
    match words.dropLast with
    | [] => last
    | [w] => w ++ sep ++ last
    | ws => String.intercalate ", " ws ++ "," ++ sep ++ last

/-- insertion into a sorted list of strings (JavaScript `Array.sort`
default string order). -/
def sortIns (x : String) : List String → List String
  | [] => [x]
  | y :: ys => if x ≤ y then x :: y :: ys else y :: sortIns x ys

/-- sort the expectation strings (`expect.sort()`). -/
def sortStr : List String → List String
  | [] => []
  | x :: xs => sortIns x (sortStr xs)

/-- remove adjacent duplicates after sorting, as `Source.message` does. -/
def dedupAdj : List String → List String
  | [] => []
  | [x] => [x]
  | x :: y :: rest => if x = y then dedupAdj (y :: rest) else x :: dedupAdj (y :: rest)

/-- `Source` of grammar.ts: the parsed string, its length, the cursor, and
the furthest-failure record.  Recorded failures are kept as the strings
they would render to (`expectation()` of a terminal or described symbol,
or a plain string). -/
structure Source where
  s : String
  len : Nat
  pos : Nat
  err : List String
  errPos : Int
deriving DecidableEq, Repr

def Source.init (s : String) : Source := ⟨s, s.data.length, 0, [], -1⟩

/-- `Source.error(what, keep)`: record a failure at the current position,
only if it is at least as far as the furthest failure so far. -/
def Source.error (src : Source) (what : String) (keep : Int) : Source :=
  if (src.pos : Int) ≥ src.errPos then
    if (src.pos : Int) > src.errPos then
      { src with err := [what], errPos := (src.pos : Int) }
    else
      { src with err := (if keep ≥ 0 then src.err.take keep.toNat else src.err) ++ [what] }
  else src

/-- `Source.errorCount()`. -/
def Source.errorCount (src : Source) : Nat :=
  if (src.pos : Int) = src.errPos then src.err.length else 0

/-- `Source.message()`: sort the expectations, drop adjacent duplicates,
and format through `errorMessage`. -/
def Source.message (src : Source) : String :=
  let expect := dedupAdj (sortStr src.err)
  errorMessage ("expected " ++ joinUp expect false) src.s src.errPos

/-- `Source.customMessage(msg, pos)`. -/
def Source.customMessage (src : Source) (msg : String) (pos : Int) : String :=
  errorMessage msg src.s pos

/-- Regex semantics: pattern, input, start position → optional
(matched text, regex lastIndex after the match), like a sticky `exec`. -/
def Rx : Type := String → String → Nat → Option (String × Nat)

/-- skip the whitespace regex at the cursor (`Source.skipWS`). -/
def skipWS (ws : String) (rx : Rx) (src : Source) : Source :=
  match rx ws src.s src.pos with
  | some (_, p') => { src with pos := p' }
  | none => src

/-- three-valued nullability (`MatchesNothing` of grammar.ts). -/
inductive MatchesNothing where
  | UNKNOWN
  | NO
  | YES
deriving DecidableEq, Repr

/-- matcher-produced values: terminal tokens `{text, pos}` and arrays.
Replacement functions map value lists to values. -/
inductive Value where
  | tok (text : String) (pos : Nat)
  | list (vs : List Value)

/-- the matcher graph: the seven node kinds of grammar.ts.  A `Symbol`
refers to its rule by name; an `Item` of a sequence is a matcher paired
with its keep flag. -/
inductive Matcher where
  | text (t : String) (skipWS : Bool)
  | regex (pat : String) (skipWS : Bool)
  | symbol (name : String)
  | seq (items : List (Matcher × Bool)) (repl : String)
  | choice (ms : List Matcher)
  | rep (base : Matcher) (zeroOK : Bool) (multipleOK : Bool)
  | pred (base : Matcher) (name : String)

/-- default keep flag of a matcher kind: `Text.keep()` is false,
`Predicate.keep()` delegates to its base, all the rest are true. -/
def Matcher.keep : Matcher → Bool
  | .text _ _ => false
  | .pred b _ => b.keep
  | _ => true

/-- a rule: body (null until defined), optional description, and the
whitespace-skipping flag. -/
structure Rule where
  matcher : Option Matcher
  description : Option String
  skipWS : Bool

/-- a grammar: rules in insertion order, the start rule's name, and the
whitespace regex pattern. -/
structure Grammar where
  rules : List (String × Rule)
  start : Option String
  ws : String

def Grammar.find (g : Grammar) (n : String) : Option Rule :=
  (g.rules.find? (fun p => p.1 = n)).map (fun p => p.2)

/-- the caller-supplied action tables (`Actions` of src/index.ts). -/
structure Actions where
  replacements : String → Option (List Value → Value)
  predicates : String → Option (Value → List Value → Option String)

def defaultReplacementFn : List Value → Value := fun args => .list args

def singleItemReplacementFn : List Value → Value := fun args => args.headD (.list [])

/-- number of kept items of a sequence (`Sequence.keptItemCount`). -/
def keptItemCount (items : List (Matcher × Bool)) : Nat :=
  (items.filter (fun p => p.2)).length

/-- the replacement function a sequence is bound to. -/
def seqFn (a : Actions) (items : List (Matcher × Bool)) (repl : String) : Option (List Value → Value) :=
  if repl = "" then
    some (if keptItemCount items = 1 then singleItemReplacementFn else defaultReplacementFn)
  else a.replacements repl

/-- `Text.match`. -/
def matchText (t : String) (sw : Bool) (ws : String) (rx : Rx) (src : Source) : Option Value × Source :=
  let pos := src.pos
  let npos := pos + t.data.length
  if jsSubstring src.s (pos : Int) (npos : Int) = t then
    let src1 := { src with pos := npos }
    let src2 := if sw then skipWS ws rx src1 else src1
    (some (.tok t pos), src2)
  else
    (none, Source.error src (⟨[quoteC]⟩ ++ t ++ ⟨[quoteC]⟩) (-1))

/-- `Regex.match`. -/
def matchRegex (pat : String) (sw : Bool) (ws : String) (rx : Rx) (src : Source) : Option Value × Source :=
  let pos := src.pos
  match rx pat src.s pos with
  | some (txt, li) =>
    let src1 := { src with pos := li }
    let src2 := if sw then skipWS ws rx src1 else src1
    (some (.tok txt pos), src2)
  | none => (none, Source.error src pat (-1))

/-- `Sequence.match`'s item loop: thread the source through the items,
collecting kept values; on an item failure restore the cursor to `opos`
and fail. -/
def seqGo (rec : Matcher → Source → Option (Option Value × Source)) :
    List (Matcher × Bool) → Nat → List Value → Source → Option (Option (List Value) × Source)
  | [], _, acc, src => some (some acc.reverse, src)
  | (m, k) :: rest, opos, acc, src =>
    match rec m src with
    | none => none
    | some (none, s') => some (none, { s' with pos := opos })
    | some (some v, s') => seqGo rec rest opos (if k then v :: acc else acc) s'

/-- `Choice.match`'s loop: first success wins, threading the source. -/
def chGo (rec : Matcher → Source → Option (Option Value × Source)) :
    List Matcher → Source → Option (Option Value × Source)
  | [], src => some (none, src)
  | m :: rest, src =>
    match rec m src with
    | none => none
    | some (none, s') => chGo rec rest s'
    | some (some v, s') => some (some v, s')

/-- `Repeat.match`'s loop: stop at end of input once allowed, stop when the
base fails, stop after one success when `multipleOK` is false. -/
def repGo (rec : Matcher → Source → Option (Option Value × Source)) :
    Nat → Matcher → Bool → Bool → List Value → Source → Option (List Value × Source)
  | 0, _, _, _, _, _ => none
  | fuel + 1, b, z, mo, acc, src =>
    if src.pos == src.len && (z || !acc.isEmpty) then some (acc.reverse, src)
    else
      match rec b src with
      | none => none
      | some (none, s') => some (acc.reverse, s')
      | some (some v, s') =>
        if mo then repGo rec fuel b z mo (v :: acc) s'
        else some ((v :: acc).reverse, s')

/-- `Matcher.match`: the matching engine.  The inner `Option` is the
`noMatch` sentinel; the outer `Option` is the exception channel (missing
rule body, missing action function, fuel exhaustion). -/
def matchM : Nat → Grammar → Actions → Rx → Matcher → Source → Option (Option Value × Source)
  | 0, _, _, _, _, _ => none
  | fuel + 1, g, a, rx, m, src =>
    match m with
    | .text t sw => some (matchText t sw g.ws rx src)
    | .regex pat sw => some (matchRegex pat sw g.ws rx src)
    | .symbol n =>
      match g.find n with
      | none => none
      | some r =>
        match r.matcher with
        | none => none
        | some body =>
          let keepErrors : Int := (src.errorCount : Int)
          let src1 := if r.skipWS then skipWS g.ws rx src else src
          match matchM fuel g a rx body src1 with
          | none => none
          | some (none, s2) =>
            match r.description with
            | some d => some (none, Source.error s2 d keepErrors)
            | none => some (none, s2)
          | some (some v, s2) => some (some v, s2)
    | .seq items repl =>
      match seqGo (matchM fuel g a rx) items src.pos [] src with
      | none => none
      | some (none, s') => some (none, s')
      | some (some vs, s') =>
        match seqFn a items repl with
        | none => none
        | some f => some (some (f vs), s')
    | .choice ms => chGo (matchM fuel g a rx) ms src
    | .rep b z mo =>
      match repGo (matchM fuel g a rx) fuel b z mo [] src with
      | none => none
      | some (ms, s') =>
        some (if !z && ms.isEmpty then (none, s') else (some (.list ms), s'))
    | .pred b nm =>
      match a.predicates nm with
      | none => none
      | some fn =>
        let pos := src.pos
        match matchM fuel g a rx b src with
        | none => none
        | some (none, s') => some (none, s')
        | some (some v, s') =>
          match fn v [] with
          | none => some (some v, s')
          | some e =>
            if e = "" then some (some v, s')
            else some (none, Source.error { s' with pos := pos } e (-1))

/-- items of the action-binding check (`Item.actions` recursion). -/
def bindChkItems (rec : Matcher → Bool) : List (Matcher × Bool) → Bool
  | [] => true
  | (m, _) :: rest => rec m && bindChkItems rec rest

def bindChkList (rec : Matcher → Bool) : List Matcher → Bool
  | [] => true
  | m :: rest => rec m && bindChkList rec rest

/-- does `actions(actions)` succeed on this matcher (no missing replacement
or predicate function)? -/
def bindChk : Nat → Actions → Matcher → Bool
  | 0, _, _ => false
  | fuel + 1, a, m =>
    match m with
    | .text _ _ => true
    | .regex _ _ => true
    | .symbol _ => true
    | .seq items repl => (repl = "" || (a.replacements repl).isSome) && bindChkItems (bindChk fuel a) items
    | .choice ms => bindChkList (bindChk fuel a) ms
    | .rep b _ _ => bindChk fuel a b
    | .pred b n => (a.predicates n).isSome && bindChk fuel a b

/-- `Grammar.actions` succeeds: all rules bind (a rule without a body
would throw when its matcher is dereferenced). -/
def bindOK (fuel : Nat) (a : Actions) (g : Grammar) : Bool :=
  g.rules.all (fun p =>
    match p.2.matcher with
    | some m => bindChk fuel a m
    | none => false)

/-- the value of `parser.match`. -/
structure MatchResult where
  result : Option Value
  error : Option String

/-- `Grammar.match(s)`: bind actions if needed, make a fresh source, match
the start rule's symbol, then classify the outcome; the final source is
also returned (the grammar stores it for `parser.error`). -/
def matchTop (fuel : Nat) (g : Grammar) (a : Actions) (rx : Rx) (s : String) :
    Option (MatchResult × Source) :=
  if bindOK fuel a g then
    match g.start with
    | none => none
    | some startName =>
      let src := Source.init s
      match matchM fuel g a rx (.symbol startName) src with
      | none => none
      | some (none, s1) => some ({ result := none, error := some s1.message }, s1)
      | some (some v, s1) =>
        if s1.pos < s1.len then
          let s2 := Source.error s1 "end of input" (-1)
          some ({ result := some v, error := some s2.message }, s2)
        else some ({ result := some v, error := none }, s1)
  else none

/-- `Grammar.error(message, pos)` formats against the source stored by the
most recent `match`; with no stored source the JavaScript code dereferences
`undefined` and throws, modelled as `none`. -/
def grammarErrorCall (lastSrc : Option Source) (msg : String) (pos : Int) : Option String :=
  match lastSrc with
  | none => none
  | some src => some (src.customMessage msg pos)

/-- the grammar's stored source reference just after construction. -/
def freshLastSrc : Option Source := none

/-- `Sequence.canMatchNothing`'s item loop: `NO` short-circuits, `UNKNOWN`
downgrades the running `YES`. -/
def cmnItems (rec : Matcher → MatchesNothing) : List (Matcher × Bool) → MatchesNothing → MatchesNothing
  | [], rv => rv
  | (m, _) :: rest, rv =>
    match rec m with
    | .NO => .NO
    | .UNKNOWN => cmnItems rec rest .UNKNOWN
    | .YES => cmnItems rec rest rv

/-- `Choice.canMatchNothing`'s loop: `YES` short-circuits, `UNKNOWN`
downgrades the running `NO`. -/
def cmnChoice (rec : Matcher → MatchesNothing) : List Matcher → MatchesNothing → MatchesNothing
  | [], rv => rv
  | m :: rest, rv =>
    match rec m with
    | .YES => .YES
    | .UNKNOWN => cmnChoice rec rest .UNKNOWN
    | .NO => cmnChoice rec rest rv

/-- `Matcher.canMatchNothing` under a per-rule nullability assignment `st`
(a `Symbol` reads its rule's stored value). -/
def cmnM : Nat → Rx → (String → MatchesNothing) → Matcher → MatchesNothing
  | 0, _, _, _ => .UNKNOWN
  | fuel + 1, rx, st, m =>
    match m with
    | .text _ _ => .NO
    | .regex pat _ => if (rx pat "" 0).isSome then .YES else .NO
    | .symbol n => st n
    | .seq items _ => cmnItems (cmnM fuel rx st) items .YES
    | .choice ms => cmnChoice (cmnM fuel rx st) ms .NO
    | .rep b z _ => if z then .YES else cmnM fuel rx st b
    | .pred b _ => cmnM fuel rx st b

/-- per-rule nullability assignments, stored as an association list with a
default of `UNKNOWN`. -/
abbrev NullSt : Type := List (String × MatchesNothing)

def NullSt.get (st : NullSt) (n : String) : MatchesNothing :=
  ((st.find? (fun p => p.1 = n)).map (fun p => p.2)).getD .UNKNOWN

def NullSt.set (st : NullSt) (n : String) (v : MatchesNothing) : NullSt :=
  if (st.find? (fun p => p.1 = n)).isSome then
    st.map (fun p => if p.1 = n then (n, v) else p)
  else st ++ [(n, v)]

/-- one pass of the nullability fixpoint of `Grammar.check`: visit rules in
order and resolve any still-`UNKNOWN` rule whose body now evaluates to a
known value; returns the updated state and whether progress was made. -/
def nullPass (fuel : Nat) (rx : Rx) : List (String × Rule) → NullSt → NullSt × Bool
  | [], st => (st, false)
  | (n, r) :: rest, st =>
    if st.get n = .UNKNOWN then
      let c := match r.matcher with
        | some m => cmnM fuel rx (st.get) m
        | none => .UNKNOWN
      if c ≠ .UNKNOWN then
        let (st', _) := nullPass fuel rx rest (st.set n c)
        (st', true)
      else nullPass fuel rx rest st
    else nullPass fuel rx rest st

/-- number of rules still `UNKNOWN` (the `undefCount` of `Grammar.check`). -/
def unknownCount (g : Grammar) (st : NullSt) : Nat :=
  (g.rules.filter (fun p => st.get p.1 = .UNKNOWN)).length

/-- the `while (undefCount > 0 && progress)` loop. -/
def nullLoop : Nat → Nat → Rx → Grammar → NullSt → NullSt
  | 0, _, _, _, st => st
  | passes + 1, fuel, rx, g, st =>
    if unknownCount g st > 0 then
      let (st', progress) := nullPass fuel rx g.rules st
      if progress then nullLoop passes fuel rx g st' else st'
    else st

/-- the full nullability computation: fixpoint, then the conservative
`UNKNOWN → YES` fallback for rules in unresolved cycles. -/
def finalNull (fuel : Nat) (rx : Rx) (g : Grammar) : NullSt :=
  let st := nullLoop (g.rules.length + 1) fuel rx g []
  g.rules.map (fun p =>
    (p.1, match st.get p.1 with
          | .UNKNOWN => .YES
          | v => v))

/-- does any item satisfy `rec` (`Sequence.hasEmptyRepeat`'s loop)? -/
def anyItems (rec : Matcher → Bool) : List (Matcher × Bool) → Bool
  | [] => false
  | (m, _) :: rest => rec m || anyItems rec rest

def anyList (rec : Matcher → Bool) : List Matcher → Bool
  | [] => false
  | m :: rest => rec m || anyList rec rest

/-- `Matcher.hasEmptyRepeat` under the final nullability assignment.  Note
that for a `Repeat` the source only asks whether the base is possibly
nullable and does not look inside the base, and a `Symbol` is never
descended into. -/
def herM : Nat → Rx → (String → MatchesNothing) → Matcher → Bool
  | 0, _, _, _ => false
  | fuel + 1, rx, st, m =>
    match m with
    | .text _ _ => false
    | .regex _ _ => false
    | .symbol _ => false
    | .seq items _ => anyItems (fun m' => herM fuel rx st m') items
    | .choice ms => anyList (fun m' => herM fuel rx st m') ms
    | .rep b _ _ => cmnM fuel rx st b ≠ .NO
    | .pred b _ => herM fuel rx st b

/-- ordered truthy-map used as the visit set of the left-recursion walk;
keys persist after being set to `false`, exactly as JavaScript object keys
do. -/
abbrev VisitSet : Type := List (String × Bool)

def VisitSet.get (v : VisitSet) (n : String) : Bool :=
  ((v.find? (fun p => p.1 = n)).map (fun p => p.2)).getD false

def VisitSet.set (v : VisitSet) (n : String) (b : Bool) : VisitSet :=
  if (v.find? (fun p => p.1 = n)).isSome then
    v.map (fun p => if p.1 = n then (n, b) else p)
  else v ++ [(n, b)]

def VisitSet.keys (v : VisitSet) : List String := v.map (fun p => p.1)

/-- state threaded through `leftReferences`: the per-rule checked flags,
the visit set and the accumulated failures. -/
structure LRState where
  checked : List (String × Bool)
  visit : VisitSet
  fails : List String

def LRState.isChecked (s : LRState) (n : String) : Bool := VisitSet.get s.checked n

/-- `Sequence.leftReferences`: walk the leftmost positions, continuing past
an item only when it can match nothing. -/
def lrItems (rec : Matcher → LRState → Option (Bool × LRState))
    (cmnf : Matcher → MatchesNothing) : List (Matcher × Bool) → LRState → Option (Bool × LRState)
  | [], s => some (false, s)
  | (m, _) :: rest, s =>
    match rec m s with
    | none => none
    | some (true, s') => some (true, s')
    | some (false, s') =>
      if cmnf m ≠ .YES then some (false, s')
      else lrItems rec cmnf rest s'

/-- `Choice.leftReferences`: all alternatives contribute. -/
def lrList (rec : Matcher → LRState → Option (Bool × LRState)) :
    List Matcher → LRState → Option (Bool × LRState)
  | [], s => some (false, s)
  | m :: rest, s =>
    match rec m s with
    | none => none
    | some (true, s') => some (true, s')
    | some (false, s') => lrList rec rest s'

/-- `Matcher.leftReferences`: on reaching a symbol already truthy in the
visit set, push every key of the visit set (truthy or not) onto the
failures. -/
def lrM : Nat → Grammar → Rx → (String → MatchesNothing) → Matcher → LRState → Option (Bool × LRState)
  | 0, _, _, _, _, _ => none
  | fuel + 1, g, rx, st, m, s =>
    match m with
    | .text _ _ => some (false, s)
    | .regex _ _ => some (false, s)
    | .symbol n =>
      if VisitSet.get s.visit n then
        some (true, { s with fails := s.fails ++ s.visit.keys })
      else if s.isChecked n then some (false, s)
      else
        match g.find n with
        | none => none
        | some r =>
          match r.matcher with
          | none => none
          | some body =>
            let s1 : LRState :=
              { s with checked := VisitSet.set s.checked n true,
                       visit := VisitSet.set s.visit n true }
            match lrM fuel g rx st body s1 with
            | none => none
            | some (res, s2) => some (res, { s2 with visit := VisitSet.set s2.visit n false })
    | .seq items _ => lrItems (lrM fuel g rx st) (cmnM fuel rx st) items s
    | .choice ms => lrList (lrM fuel g rx st) ms s
    | .rep b _ _ => lrM fuel g rx st b s
    | .pred b _ => lrM fuel g rx st b s

/-- the phase-3 driver of `Grammar.check`: for each not-yet-checked rule,
mark it checked, seed the visit set with it, and run `leftReferences`,
accumulating failures across rules. -/
def lrRules (fuel : Nat) (g : Grammar) (rx : Rx) (st : String → MatchesNothing) :
    List (String × Rule) → LRState → Option LRState
  | [], s => some s
  | (n, r) :: rest, s =>
    if s.isChecked n then lrRules fuel g rx st rest s
    else
      match r.matcher with
      | none => none
      | some body =>
        let s1 : LRState := { s with checked := VisitSet.set s.checked n true, visit := [(n, true)] }
        match lrM fuel g rx st body s1 with
        | none => none
        | some (_, s2) => lrRules fuel g rx st rest s2

/-- the left-recursion failures reported by `Grammar.check`. -/
def lrPhase (fuel : Nat) (g : Grammar) (rx : Rx) (st : String → MatchesNothing) :
    Option (List String) :=
  (lrRules fuel g rx st g.rules ⟨[], [], []⟩).map (fun s => s.fails)

/-- names of referenced-but-undefined rules, in rule order. -/
def undefNames (g : Grammar) : List String :=
  (g.rules.filter (fun p => p.2.matcher.isNone)).map (fun p => p.1)

/-- the undefined-symbol diagnostic of `Grammar.check`. -/
def undefMsg (fails : List String) : String :=
  let plural := fails.length > 1
  "The " ++ (if plural then "symbols " else "symbol ") ++ joinUp fails true ++
    (if plural then " have no rules " else " has no rule ") ++ "defined"

/-- the left-recursion diagnostic of `Grammar.check`. -/
def lrMsg (fails : List String) : String :=
  let plural := fails.length > 1
  "The " ++ (if plural then "rules " else "rule ") ++ "for " ++ joinUp fails true ++
    (if plural then " contain " else " contains ") ++
    "left-recursion which would cause a stack overflow during parsing"

/-- the wildcard-over-nullable diagnostic of `Grammar.check`. -/
def erMsg (fails : List String) : String :=
  let plural := fails.length > 1
  "The " ++ (if plural then "rules " else "rule ") ++ "for " ++ joinUp fails true ++
    (if plural then " contain " else " contains ") ++
    "a wildcard (*, +, or ?) of something that can be empty. This would " ++
    "cause an infinite loop during parsing"

/-- rules whose body has an empty repeat, under the final nullability. -/
def erNames (fuel : Nat) (rx : Rx) (g : Grammar) (st : String → MatchesNothing) : List String :=
  (g.rules.filter (fun p =>
    match p.2.matcher with
    | some m => herM fuel rx st m
    | none => false)).map (fun p => p.1)

/-- `Grammar.check()`: empty grammar, undefined symbols, nullability
fixpoint, left recursion, wildcard over nullable — in that order.  The
outer `Option` is the exception/fuel channel; the inner `Option String`
is the diagnostic (`none` = grammar accepted). -/
def check (fuel : Nat) (rx : Rx) (g : Grammar) : Option (Option String) :=
  match g.start with
  | none => some (some "empty grammar")
  | some _ =>
    if !(undefNames g).isEmpty then some (some (undefMsg (undefNames g)))
    else
      let stL := finalNull fuel rx g
      let st := stL.get
      match lrPhase fuel g rx st with
      | none => none
      | some lrFails =>
        if !lrFails.isEmpty then some (some (lrMsg lrFails))
        else
          let er := erNames fuel rx g st
          if !er.isEmpty then some (some (erMsg er)) else some none

/-- token kinds of the DSL lexer (`TokenType`). -/
inductive TokKind where
  | EOF
  | SYMBOL
  | TEXT
  | REGEX
  | DESCRIPTION
  | CHAR
deriving DecidableEq, Repr

/-- a DSL token. -/
structure Tok where
  kind : TokKind
  value : String
  position : Nat
deriving DecidableEq, Repr

def isLowerAZ (c : Char) : Bool := 'a' ≤ c && c ≤ 'z'

def isSymCh (c : Char) : Bool :=
  ('a' ≤ c && c ≤ 'z') || ('A' ≤ c && c ≤ 'Z') || ('0' ≤ c && c ≤ '9')

/-- the `\b \f \t \v \r \n` escape table; any other escaped character
stands for itself. -/
def specialChar (c : Char) : Char :=
  if c = 'b' then Char.ofNat 8
  else if c = 'f' then Char.ofNat 12
  else if c = 't' then Char.ofNat 9
  else if c = 'v' then Char.ofNat 11
  else if c = 'r' then Char.ofNat 13
  else if c = 'n' then nlC
  else c

/-- apply `replace(/\\./g, ...)` to a raw TEXT body. -/
def unesc : List Char → List Char
  | [] => []
  | c :: rest =>
    if c = bslashC then
      match rest with
      | [] => [c]
      | c2 :: rest2 => specialChar c2 :: unesc rest2
    else c :: unesc rest

/-- `value.replace('(', '(?:')`: a string pattern in JavaScript replaces
only the first occurrence. -/
def repFirstParen : List Char → List Char
  | [] => []
  | c :: rest =>
    if c = '(' then '(' :: '?' :: ':' :: rest
    else c :: repFirstParen rest

/-- body of a quoted TEXT token: one or more of (escape pair with a
non-newline escaped character, or a plain character that is neither a
quote nor a backslash), then the closing quote; returns the raw body and
the number of characters it spans. -/
def quotedBody : List Char → List Char → Nat → Option (List Char × Nat)
  | _, [], _ => none
  | acc, c :: rest, n =>
    if c = quoteC then
      if n = 0 then none else some (acc.reverse, n)
    else if c = bslashC then
      match rest with
      | [] => none
      | c2 :: rest2 => if c2 = nlC then none else quotedBody (c2 :: bslashC :: acc) rest2 (n + 2)
    else quotedBody (c :: acc) rest (n + 1)

/-- body of a REGEX token: zero or more of (escape pair, or a plain
character that is neither a slash nor a backslash), then the closing
slash. -/
def regexBody : List Char → List Char → Nat → Option (List Char × Nat)
  | _, [], _ => none
  | acc, c :: rest, n =>
    if c = '/' then some (acc.reverse, n)
    else if c = bslashC then
      match rest with
      | [] => none
      | c2 :: rest2 => if c2 = nlC then none else regexBody (c2 :: bslashC :: acc) rest2 (n + 2)
    else regexBody (c :: acc) rest (n + 1)

/-- scan one token at position `p` of the source (whitespace already
skipped); `p` is assumed in range.  Returns the token and the new scan
position. -/
def scanAt (s : List Char) (p : Nat) : Tok × Nat :=
  match s.drop p with
  | [] => (⟨.EOF, "", p⟩, p)
  | c :: rest =>
    if isLowerAZ c then
      let sym := c :: rest.takeWhile isSymCh
      (⟨.SYMBOL, ⟨sym⟩, p⟩, p + sym.length)
    else if c = quoteC then
      match quotedBody [] rest 0 with
      | some (body, n) => (⟨.TEXT, ⟨unesc body⟩, p⟩, p + 1 + n + 1)
      | none => (⟨.CHAR, ⟨[c]⟩, p⟩, p + 1)
    else if c = '/' then
      match regexBody [] rest 0 with
      | some (body, n) => (⟨.REGEX, ⟨repFirstParen body⟩, p⟩, p + 1 + n + 1)
      | none => (⟨.CHAR, ⟨[c]⟩, p⟩, p + 1)
    else if c = '<' then
      let body := rest.takeWhile (fun ch => ch ≠ '>')
      if body.length ≥ 1 && (rest.drop body.length).headD ' ' = '>' && body.length < rest.length then
        (⟨.DESCRIPTION, ⟨body⟩, p⟩, p + 1 + body.length + 1)
      else (⟨.CHAR, ⟨[c]⟩, p⟩, p + 1)
    else (⟨.CHAR, ⟨[c]⟩, p⟩, p + 1)

/-- lexer state: source, scan position (the regex `lastIndex`), pushed-back
tokens, and the latched error. -/
structure LexSt where
  s : List Char
  scanPos : Nat
  pushed : List Tok
  err : Option (String × Tok)
deriving DecidableEq, Repr

def lexInit (s : String) : LexSt := ⟨s.data, 0, [], none⟩

/-- `Lexer.next()`: after an error, always EOF; otherwise pop a pushed-back
token, or skip whitespace and scan. -/
def lexNext (l : LexSt) : Tok × LexSt :=
  match l.err with
  | some _ => (⟨.EOF, "", l.scanPos⟩, l)
  | none =>
    match l.pushed with
    | t :: rest => (t, { l with pushed := rest })
    | [] =>
      let q := l.scanPos + ((l.s.drop l.scanPos).takeWhile jsIsWS).length
      let (t, p') := scanAt l.s q
      (t, { l with scanPos := p' })

/-- `Lexer.pushBack(t)`. -/
def lexPush (l : LexSt) (t : Tok) : LexSt := { l with pushed := t :: l.pushed }

/-- `Lexer.peek()` = next then pushBack. -/
def lexPeek (l : LexSt) : Tok × LexSt :=
  let (t, l') := lexNext l
  (t, lexPush l' t)

/-- `Lexer.error(reason, token)`: the first error latches. -/
def lexError (l : LexSt) (reason : String) (t : Tok) : LexSt :=
  match l.err with
  | some _ => l
  | none => { l with err := some (reason, t) }

def lexHasError (l : LexSt) : Bool := l.err.isSome

/-- `Lexer.message()`. -/
def lexMessage (l : LexSt) : String :=
  match l.err with
  | none => ""
  | some (reason, t) => errorMessage reason ⟨l.s⟩ (t.position : Int)

/-- `grammar.get(symbol)`: create the rule on first reference; the first
rule ever created becomes the start rule. -/
def gGet (g : Grammar) (n : String) : Grammar :=
  if (g.rules.find? (fun p => p.1 = n)).isSome then g
  else
    { g with rules := g.rules ++ [(n, ⟨none, none, false⟩)],
             start := if g.start.isNone then some n else g.start }

/-- store a parsed rule body, description and whitespace flag
(`parseRule`'s final assignments). -/
def gSet (g : Grammar) (n : String) (m : Matcher) (d : Option String) (sw : Bool) : Grammar :=
  { g with rules := g.rules.map (fun p => if p.1 = n then (n, ⟨some m, d, sw⟩) else p) }

/-- requests of the mutually recursive DSL parser functions. -/
inductive PReq where
  | pMatcher
  | pItem
  | pSeq
  | pSeqLoop (acc : List (Matcher × Bool))
  | pChoice
  | pChoiceLoop (acc : List Matcher)

/-- results of the DSL parser functions. -/
inductive PRes where
  | mOpt (m : Option Matcher)
  | iOpt (i : Option (Matcher × Bool))
  | its (l : List (Matcher × Bool))

/-- the tail of `parseItem` after the matcher is parsed: the optional
wildcard suffix, the optional `:predicate` suffix, and the keep-flag
defaulting `new g.Item(matcher, keep)`. -/
def itemFin (keep : Option Bool) (m1 : Matcher) (t3 : Tok) (l5 : LexSt) :
    Option (Matcher × Bool) × LexSt :=
  if t3.kind = .CHAR ∧ t3.value = ":" then
    let (t4, l6) := lexNext l5
    if t4.kind ≠ .SYMBOL then (none, lexError l6 "expected predicate name" t4)
    else (some (.pred m1 t4.value, keep.getD (Matcher.keep (.pred m1 t4.value))), l6)
  else (some (m1, keep.getD m1.keep), lexPush l5 t3)

def itemTail (keep : Option Bool) (m0 : Matcher) (l3 : LexSt) : Option (Matcher × Bool) × LexSt :=
  let (t2, l4) := lexNext l3
  let wtl : Matcher × Tok × LexSt :=
    if t2.kind = .CHAR ∧ t2.value = "*" then
      let (t', l') := lexNext l4; (.rep m0 true true, t', l')
    else if t2.kind = .CHAR ∧ t2.value = "+" then
      let (t', l') := lexNext l4; (.rep m0 false true, t', l')
    else if t2.kind = .CHAR ∧ t2.value = "?" then
      let (t', l') := lexNext l4; (.rep m0 true false, t', l')
    else (m0, t2, l4)
  itemFin keep wtl.1 wtl.2.1 wtl.2.2

/-- the recursive-descent DSL parser of grammar-parser.ts
(`parseMatcher`, `parseItem`, `parseSequence`, `parseChoice`), fuelled. -/
def parseF : Nat → PReq → Bool → Grammar → LexSt → Option (PRes × Grammar × LexSt)
  | 0, _, _, _, _ => none
  | fuel + 1, req, sw, g, l =>
    match req with
    | .pMatcher =>
      let (t, l1) := lexNext l
      match t.kind with
      | .CHAR =>
        if t.value ≠ "(" then some (.mOpt none, g, lexPush l1 t)
        else
          match parseF fuel .pChoice sw g l1 with
          | none => none
          | some (.mOpt mo, g2, l2) =>
            let (t2, l3) := lexNext l2
            if t2.kind = .CHAR ∧ t2.value = ")" then some (.mOpt mo, g2, l3)
            else some (.mOpt none, g2, lexError l3 "expected ')'" t2)
          | some _ => none
      | .TEXT => some (.mOpt (some (.text t.value sw)), g, l1)
      | .SYMBOL =>
        let (nt, l2) := lexPeek l1
        if nt.kind = .DESCRIPTION ∨ (nt.kind = .CHAR ∧ (nt.value = "." ∨ nt.value = "=")) then
          some (.mOpt none, g, lexPush l2 t)
        else some (.mOpt (some (.symbol t.value)), gGet g t.value, l2)
      | .REGEX => some (.mOpt (some (.regex t.value sw)), g, l1)
      | _ => some (.mOpt none, g, lexPush l1 t)
    | .pItem =>
      let (t, l1) := lexNext l
      let kl : Option Bool × LexSt :=
        if t.kind = .CHAR ∧ t.value = "!" then (some true, l1)
        else if t.kind = .CHAR ∧ t.value = "-" then (some false, l1)
        else (none, lexPush l1 t)
      match parseF fuel .pMatcher sw g kl.2 with
      | none => none
      | some (.mOpt none, g2, l3) => some (.iOpt none, g2, l3)
      | some (.mOpt (some m0), g2, l3) =>
        let r := itemTail kl.1 m0 l3
        some (.iOpt r.1, g2, r.2)
      | some _ => none
    | .pSeqLoop acc =>
      match parseF fuel .pItem sw g l with
      | none => none
      | some (.iOpt none, g2, l2) => some (.its acc.reverse, g2, l2)
      | some (.iOpt (some it), g2, l2) => parseF fuel (.pSeqLoop (it :: acc)) sw g2 l2
      | some _ => none
    | .pSeq =>
      match parseF fuel (.pSeqLoop []) sw g l with
      | none => none
      | some (.its items, g2, l2) =>
        if lexHasError l2 then some (.mOpt none, g2, l2)
        else
          let (t, l3) := lexNext l2
          let rl : Option String × LexSt :=
            if t.kind = .CHAR ∧ t.value = "%" then
              let (t2, l4) := lexNext l3
              if t2.kind ≠ .SYMBOL then (none, lexError l4 "expected replacement name" t2)
              else (some t2.value, l4)
            else (some "", lexPush l3 t)
          match rl.1 with
          | none => some (.mOpt none, g2, rl.2)
          | some repl =>
            if items.isEmpty then
              let (tn, ln) := lexNext rl.2
              some (.mOpt none, g2, lexError ln "empty sequence" tn)
            else some (.mOpt (some (.seq items repl)), g2, rl.2)
      | some _ => none
    | .pChoice => parseF fuel (.pChoiceLoop []) sw g l
    | .pChoiceLoop acc =>
      match parseF fuel .pSeq sw g l with
      | none => none
      | some (.mOpt none, g2, l2) => some (.mOpt none, g2, l2)
      | some (.mOpt (some m), g2, l2) =>
        let (t, l3) := lexNext l2
        if t.kind = .CHAR ∧ t.value = "|" then parseF fuel (.pChoiceLoop (m :: acc)) sw g2 l3
        else
          let l4 := lexPush l3 t
          match acc with
          | [] => some (.mOpt (some m), g2, l4)
          | _ => some (.mOpt (some (.choice (m :: acc).reverse)), g2, l4)
      | some _ => none

/-- `parseRule`. -/
def parseRuleF (fuel : Nat) (g : Grammar) (l : LexSt) : Option (Bool × Grammar × LexSt) :=
  let (name, l1) := lexNext l
  if name.kind ≠ .SYMBOL then some (false, g, lexError l1 "expected symbol" name)
  else
    let g1 := gGet g name.value
    let (t, l2) := lexNext l1
    let dtl : Option String × Tok × LexSt :=
      if t.kind = .DESCRIPTION then
        let (t', l') := lexNext l2
        (some t.value, t', l')
      else (none, t, l2)
    let stl : Bool × Tok × LexSt :=
      if dtl.2.1.kind = .CHAR ∧ dtl.2.1.value = "." then
        let (t', l') := lexNext dtl.2.2
        (false, t', l')
      else (true, dtl.2.1, dtl.2.2)
    if ¬(stl.2.1.kind = .CHAR ∧ stl.2.1.value = "=") then
      some (false, g1, lexError stl.2.2 "expected '='" stl.2.1)
    else
      match parseF fuel .pChoice stl.1 g1 stl.2.2 with
      | none => none
      | some (.mOpt none, g2, l5) => some (false, g2, l5)
      | some (.mOpt (some m), g2, l5) => some (true, gSet g2 name.value m dtl.1 stl.1, l5)
      | some _ => none

/-- the `while (l.peek().type != EOF && parseRule(l, grammar))` loop. -/
def parseRulesLoop : Nat → Grammar → LexSt → Option (Grammar × LexSt)
  | 0, _, _ => none
  | fuel + 1, g, l =>
    let (t, l1) := lexPeek l
    if t.kind = .EOF then some (g, l1)
    else
      match parseRuleF fuel g l1 with
      | none => none
      | some (true, g2, l2) => parseRulesLoop fuel g2 l2
      | some (false, g2, l2) => some (g2, l2)

/-- the default whitespace regex pattern (`/\s+/y`). -/
def wsPat : String := "\\s+"

/-- `parse(s)` of grammar-parser.ts: optional whitespace preamble, the rule
loop, then either the lexer's latched error or `grammar.check()`. -/
def parseG (fuel : Nat) (rx : Rx) (s : String) : Option (Grammar × Option String) :=
  let l0 := lexInit s
  let (t, l1) := lexNext l0
  let wl : String × LexSt :=
    if t.kind = .SYMBOL ∧ t.value = "whitespace" then
      let (t2, l') := lexNext l1
      if t2.kind = .REGEX then (t2.value, l')
      else (wsPat, lexPush (lexError l' "expected regular expression" t2) t2)
    else (wsPat, lexPush l1 t)
  let g0 : Grammar := ⟨[], none, wl.1⟩
  match (if lexHasError wl.2 then some (g0, wl.2) else parseRulesLoop fuel g0 wl.2) with
  | none => none
  | some (g, lf) =>
    match lf.err with
    | some (reason, tok) => some (g, some (errorMessage reason s (tok.position : Int)))
    | none =>
      match check fuel rx g with
      | none => none
      | some e => some (g, e)

/-- concrete regex semantics for the patterns used by the concrete
grammars below: the default whitespace `\s+` and `[a-z]+`. -/
def rxImpl : Rx := fun pat s pos =>
  if pat = wsPat then
    let run := (s.data.drop pos).takeWhile jsIsWS
    if run.isEmpty then none else some (⟨run⟩, pos + run.length)
  else if pat = "[a-z]+" then
    let run := (s.data.drop pos).takeWhile isLowerAZ
    if run.isEmpty then none else some (⟨run⟩, pos + run.length)
  else none

/-- empty action tables (the lazy `noActions` default). -/
def acts0 : Actions := ⟨fun _ => none, fun _ => none⟩

/-- the grammar `main = 'a'` as compiled by the DSL parser. -/
def gA : Grammar :=
  ⟨[("main", ⟨some (.seq [(.text "a" true, false)] ""), none, true⟩)], some "main", wsPat⟩

/-- the grammar `main = word word:same  word <a word> = /[a-z]+/` of the
repository's own predicate test. -/
def gSame : Grammar :=
  ⟨[("main", ⟨some (.seq [(.symbol "word", true), (.pred (.symbol "word") "same", true)] ""),
      none, true⟩),
    ("word", ⟨some (.seq [(.regex "[a-z]+" true, true)] ""), some "a word", true⟩)],
   some "main", wsPat⟩

/-- a predicate that rejects exactly when the prior-kept-values argument it
receives is empty. -/
def actsNeedPrior : Actions :=
  ⟨fun _ => none,
   fun n => if n = "same" then some (fun _ prior => if prior.isEmpty then some "a prior value" else none) else none⟩

/-- a predicate that rejects exactly when the prior-kept-values argument it
receives is non-empty. -/
def actsRejectPrior : Actions :=
  ⟨fun _ => none,
   fun n => if n = "same" then some (fun _ prior => if prior.isEmpty then none else some "no prior value") else none⟩

/-- the grammar `a = b 'x' | a 'y'   b = 'z'`: left-recursive only in `a`;
rule `b` is a plain literal and belongs to no cycle. -/
def gLR : Grammar :=
  ⟨[("a", ⟨some (.choice [.seq [(.symbol "b", true), (.text "x" true, false)] "",
                          .seq [(.symbol "a", true), (.text "y" true, false)] ""]),
      none, true⟩),
    ("b", ⟨some (.seq [(.text "z" true, false)] ""), none, true⟩)],
   some "a", wsPat⟩

/-- the grammar `main = (a* 'y')+   a = 'x'?`: the body of `main` contains
the Repeat `a*` whose base is nullable, nested inside the base of another
Repeat. -/
def gNest : Grammar :=
  ⟨[("main", ⟨some (.seq [(.rep (.seq [(.rep (.symbol "a") true true, true),
                                       (.text "y" true, false)] "") false true, true)] ""),
      none, true⟩),
    ("a", ⟨some (.seq [(.rep (.text "x" true) true false, true)] ""), none, true⟩)],
   some "main", wsPat⟩

/-- the left-recursion grammar of the repository's second validator test:
`main = sub1 h?   sub1 = main   h = 'hello'`. -/
def gLR2 : Grammar :=
  ⟨[("main", ⟨some (.seq [(.symbol "sub1", true), (.rep (.symbol "h") true false, true)] ""),
      none, true⟩),
    ("sub1", ⟨some (.seq [(.symbol "main", true)] ""), none, true⟩),
    ("h", ⟨some (.seq [(.text "hello" true, false)] ""), none, true⟩)],
   some "main", wsPat⟩

/-- a one-rule whitespace-skipping grammar whose body is `'a'`, used to
exhibit the symbol-level cursor behaviour. -/
def gWS : Grammar :=
  ⟨[("r", ⟨some (.text "a" true), none, true⟩)], some "r", wsPat⟩

/-! ### Helper lemmas -/

/-- `errorMessage` always appends a non-empty tail, so its result is never
the empty string. -/
theorem errorMessage_ne_empty (msg src : String) (errpos : Int) :
    errorMessage msg src errpos ≠ "" := by
  intro h
  have hd : (errorMessage msg src errpos).data = ("" : String).data := by rw [h]
  rw [errorMessage, String.data_append, emTail] at hd
  simp only [String.data_append] at hd
  have : (", line " : String).data ≠ [] := by decide
  rcases List.append_eq_nil.mp hd with ⟨-, h2⟩
  rcases List.append_eq_nil.mp h2 with ⟨h3, -⟩
  exact this h3

/-- `Source.message` is never empty. -/
theorem message_ne_empty (src : Source) : src.message ≠ "" := by
  unfold Source.message
  exact errorMessage_ne_empty _ _ _

/-- the relation preserved by every engine step: the parsed string and its
length never change and the furthest-failure position never decreases. -/
def SInv (a b : Source) : Prop :=
  b.s = a.s ∧ b.len = a.len ∧ a.errPos ≤ b.errPos

theorem SInv.refl (a : Source) : SInv a a := ⟨rfl, rfl, le_refl _⟩

theorem SInv.trans {a b c : Source} (h1 : SInv a b) (h2 : SInv b c) : SInv a c :=
  ⟨h2.1.trans h1.1, h2.2.1.trans h1.2.1, h1.2.2.trans h2.2.2⟩

theorem SInv_error (src : Source) (what : String) (keep : Int) :
    SInv src (Source.error src what keep) := by
  unfold Source.error
  split
  · split
    · exact ⟨rfl, rfl, le_of_lt (by assumption)⟩
    · exact ⟨rfl, rfl, le_refl _⟩
  · exact SInv.refl src

theorem SInv_skipWS (ws : String) (rx : Rx) (src : Source) :
    SInv src (skipWS ws rx src) := by
  unfold skipWS
  split
  · exact ⟨rfl, rfl, le_refl _⟩
  · exact SInv.refl src

theorem SInv_setPos (src : Source) (p : Nat) : SInv src { src with pos := p } :=
  ⟨rfl, rfl, le_refl _⟩

theorem SInv_matchText (t : String) (sw : Bool) (ws : String) (rx : Rx) (src : Source) :
    SInv src (matchText t sw ws rx src).2 := by
  unfold matchText
  by_cases h : jsSubstring src.s (src.pos : Int) ((src.pos + t.data.length : Nat) : Int) = t
  · cases sw <;>
      simp only [h, if_pos, if_true, if_false, Bool.false_eq_true, ite_true, ite_false] <;>
      first
        | exact SInv_setPos src _
        | exact (SInv_setPos src _).trans (SInv_skipWS _ _ _)
  · simp only [h, if_false, ite_false]
    exact SInv_error _ _ _

theorem SInv_matchRegex (pat : String) (sw : Bool) (ws : String) (rx : Rx) (src : Source) :
    SInv src (matchRegex pat sw ws rx src).2 := by
  unfold matchRegex
  cases hr : rx pat src.s src.pos with
  | none =>
    simp only [hr]
    exact SInv_error _ _ _
  | some pr =>
    cases sw <;>
      simp only [hr, Bool.false_eq_true, ite_true, ite_false] <;>
      first
        | exact SInv_setPos src _
        | exact (SInv_setPos src _).trans (SInv_skipWS _ _ _)

theorem seqGo_SInv (rec : Matcher → Source → Option (Option Value × Source))
    (hrec : ∀ m s out, rec m s = some out → SInv s out.2) :
    ∀ items opos acc src out, seqGo rec items opos acc src = some out → SInv src out.2 := by
  intro items
  induction items with
  | nil =>
    intro opos acc src out h
    simp only [seqGo, Option.some.injEq] at h
    rw [← h]
    exact SInv.refl src
  | cons hd tl ih =>
    intro opos acc src out h
    obtain ⟨m, k⟩ := hd
    simp only [seqGo] at h
    cases hm : rec m src with
    | none => rw [hm] at h; exact absurd h (by simp)
    | some pr =>
      obtain ⟨res, s'⟩ := pr
      rw [hm] at h
      cases res with
      | none =>
        simp only [Option.some.injEq] at h
        rw [← h]
        exact (hrec m src _ hm).trans (SInv_setPos s' opos)
      | some v =>
        exact (hrec m src _ hm).trans (ih opos _ s' out h)

theorem chGo_SInv (rec : Matcher → Source → Option (Option Value × Source))
    (hrec : ∀ m s out, rec m s = some out → SInv s out.2) :
    ∀ ms src out, chGo rec ms src = some out → SInv src out.2 := by
  intro ms
  induction ms with
  | nil =>
    intro src out h
    simp only [chGo, Option.some.injEq] at h
    rw [← h]
    exact SInv.refl src
  | cons m tl ih =>
    intro src out h
    simp only [chGo] at h
    cases hm : rec m src with
    | none => rw [hm] at h; exact absurd h (by simp)
    | some pr =>
      obtain ⟨res, s'⟩ := pr
      rw [hm] at h
      cases res with
      | none => exact (hrec m src _ hm).trans (ih s' out h)
      | some v =>
        simp only [Option.some.injEq] at h
        rw [← h]
        exact hrec m src _ hm

theorem repGo_SInv (rec : Matcher → Source → Option (Option Value × Source))
    (hrec : ∀ m s out, rec m s = some out → SInv s out.2) :
    ∀ fuel b z mo acc src out, repGo rec fuel b z mo acc src = some out → SInv src out.2 := by
  intro fuel
  induction fuel with
  | zero => intro b z mo acc src out h; exact absurd h (by simp [repGo])
  | succ n ih =>
    intro b z mo acc src out h
    simp only [repGo] at h
    by_cases hguard : (src.pos == src.len && (z || !acc.isEmpty)) = true
    · rw [if_pos hguard] at h
      simp only [Option.some.injEq] at h
      rw [← h]
      exact SInv.refl src
    · rw [if_neg hguard] at h
      cases hm : rec b src with
      | none => rw [hm] at h; exact absurd h (by simp)
      | some pr =>
        obtain ⟨res, s'⟩ := pr
        rw [hm] at h
        cases res with
        | none =>
          simp only [Option.some.injEq] at h
          rw [← h]
          exact hrec b src _ hm
        | some v =>
          cases mo with
          | false =>
            simp only [Bool.false_eq_true, if_false, ite_false, Option.some.injEq] at h
            rw [← h]
            exact hrec b src _ hm
          | true =>
            simp only [if_true, ite_true] at h
            exact (hrec b src _ hm).trans (ih b z true (v :: acc) s' out h)

/-- the engine invariant: a `match` call never changes the parsed string or
its length, and never moves the furthest-failure position backwards. -/
theorem matchM_SInv (g : Grammar) (a : Actions) (rx : Rx) :
    ∀ fuel m src out, matchM fuel g a rx m src = some out → SInv src out.2 := by
  intro fuel
  induction fuel with
  | zero => intro m src out h; exact absurd h (by simp [matchM])
  | succ n ih =>
    intro m src out h
    cases m with
    | text t sw =>
      simp only [matchM, Option.some.injEq] at h
      rw [← h]
      exact SInv_matchText t sw g.ws rx src
    | regex pat sw =>
      simp only [matchM, Option.some.injEq] at h
      rw [← h]
      exact SInv_matchRegex pat sw g.ws rx src
    | symbol nm =>
      simp only [matchM] at h
      cases hf : g.find nm with
      | none => simp only [hf] at h; exact absurd h (by simp)
      | some r =>
        simp only [hf] at h
        cases hb : r.matcher with
        | none => simp only [hb] at h; exact absurd h (by simp)
        | some body =>
          simp only [hb] at h
          have hsrc1 : SInv src (if r.skipWS = true then skipWS g.ws rx src else src) := by
            by_cases hs : r.skipWS = true <;> simp only [hs, ite_true, ite_false, Bool.false_eq_true]
            · exact SInv_skipWS g.ws rx src
            · exact SInv.refl src
          cases hm : matchM n g a rx body (if r.skipWS = true then skipWS g.ws rx src else src) with
          | none => simp only [hm] at h; exact absurd h (by simp)
          | some pr =>
            obtain ⟨res, s2⟩ := pr
            simp only [hm] at h
            have hstep : SInv src s2 := hsrc1.trans (ih body _ _ hm)
            cases res with
            | none =>
              cases hd : r.description with
              | some d =>
                simp only [hd, Option.some.injEq] at h
                rw [← h]
                exact hstep.trans (SInv_error s2 d _)
              | none =>
                simp only [hd, Option.some.injEq] at h
                rw [← h]
                exact hstep
            | some v =>
              simp only [Option.some.injEq] at h
              rw [← h]
              exact hstep
    | seq items repl =>
      simp only [matchM] at h
      cases hs : seqGo (matchM n g a rx) items src.pos [] src with
      | none => simp only [hs] at h; exact absurd h (by simp)
      | some pr =>
        obtain ⟨res, s'⟩ := pr
        simp only [hs] at h
        have hstep : SInv src s' := seqGo_SInv _ (fun m s out hm => ih m s out hm) items src.pos [] src _ hs
        cases res with
        | none =>
          simp only [Option.some.injEq] at h
          rw [← h]
          exact hstep
        | some vs =>
          cases hfn : seqFn a items repl with
          | none => simp only [hfn] at h; exact absurd h (by simp)
          | some f =>
            simp only [hfn, Option.some.injEq] at h
            rw [← h]
            exact hstep
    | choice ms =>
      simp only [matchM] at h
      exact chGo_SInv _ (fun m s out hm => ih m s out hm) ms src _ h
    | rep b z mo =>
      simp only [matchM] at h
      cases hs : repGo (matchM n g a rx) n b z mo [] src with
      | none => simp only [hs] at h; exact absurd h (by simp)
      | some pr =>
        obtain ⟨ms, s'⟩ := pr
        simp only [hs] at h
        have hstep : SInv src s' := repGo_SInv _ (fun m s out hm => ih m s out hm) n b z mo [] src _ hs
        by_cases hc : (!z && ms.isEmpty) = true <;>
          simp only [hc, if_true, ite_true, if_false, ite_false, Bool.false_eq_true, Option.some.injEq] at h <;>
          rw [← h] <;> exact hstep
    | pred b nm =>
      simp only [matchM] at h
      cases hp : a.predicates nm with
      | none => simp only [hp] at h; exact absurd h (by simp)
      | some fn =>
        simp only [hp] at h
        cases hm : matchM n g a rx b src with
        | none => simp only [hm] at h; exact absurd h (by simp)
        | some pr =>
          obtain ⟨res, s'⟩ := pr
          simp only [hm] at h
          have hstep : SInv src s' := ih b src _ hm
          cases res with
          | none =>
            simp only [Option.some.injEq] at h
            rw [← h]
            exact hstep
          | some v =>
            simp only [] at h
            cases he : fn v [] with
            | none =>
              simp only [he, Option.some.injEq] at h
              rw [← h]
              exact hstep
            | some e =>
              simp only [he] at h
              by_cases hee : e = ""
              · simp only [hee, if_pos, ite_true, Option.some.injEq] at h
                rw [← h]
                exact hstep
              · rw [if_neg hee] at h
                simp only [Option.some.injEq] at h
                rw [← h]
                exact (hstep.trans (SInv_setPos s' src.pos)).trans (SInv_error _ _ _)

theorem error_pos (src : Source) (w : String) (k : Int) : (Source.error src w k).pos = src.pos := by
  unfold Source.error
  split
  · split <;> rfl
  · rfl

/-- a matcher that contains no `Symbol` node (to the given depth). -/
def noSym : Nat → Matcher → Bool
  | 0, _ => false
  | fuel + 1, m =>
    match m with
    | .text _ _ => true
    | .regex _ _ => true
    | .symbol _ => false
    | .seq items _ => bindChkItems (noSym fuel) items
    | .choice ms => bindChkList (noSym fuel) ms
    | .rep b _ _ => noSym fuel b
    | .pred b _ => noSym fuel b

theorem bindChkList_mem (f : Matcher → Bool) :
    ∀ ms, bindChkList f ms = true → ∀ m ∈ ms, f m = true := by
  intro ms
  induction ms with
  | nil => intro _ m hm; exact absurd hm (List.not_mem_nil m)
  | cons hd tl ih =>
    intro h m hm
    simp only [bindChkList, Bool.and_eq_true] at h
    rcases List.mem_cons.mp hm with h1 | h2
    · rw [h1]; exact h.1
    · exact ih h.2 m h2

/-- an item failure makes `Sequence.match` restore the cursor to the saved
position, whatever the items are. -/
theorem seqGo_fail_pos (rec : Matcher → Source → Option (Option Value × Source)) :
    ∀ items opos acc src s', seqGo rec items opos acc src = some (none, s') → s'.pos = opos := by
  intro items
  induction items with
  | nil => intro opos acc src s' h; simp [seqGo] at h
  | cons hd tl ih =>
    intro opos acc src s' h
    obtain ⟨m, k⟩ := hd
    simp only [seqGo] at h
    cases hm : rec m src with
    | none => simp only [hm] at h; exact absurd h (by simp)
    | some pr =>
      obtain ⟨res, s1⟩ := pr
      simp only [hm] at h
      cases res with
      | none =>
        simp only [Option.some.injEq, Prod.mk.injEq] at h
        rw [← h.2]
      | some v => exact ih opos _ s1 s' h

theorem chGo_fail_pos (rec : Matcher → Source → Option (Option Value × Source)) :
    ∀ ms src s', (∀ m s out, m ∈ ms → rec m s = some out → out.1 = none → out.2.pos = s.pos) →
      chGo rec ms src = some (none, s') → s'.pos = src.pos := by
  intro ms
  induction ms with
  | nil =>
    intro src s' _ h
    simp only [chGo, Option.some.injEq, Prod.mk.injEq] at h
    rw [← h.2]
  | cons m tl ih =>
    intro src s' hrec h
    simp only [chGo] at h
    cases hm : rec m src with
    | none => simp only [hm] at h; exact absurd h (by simp)
    | some pr =>
      obtain ⟨res, s1⟩ := pr
      simp only [hm] at h
      cases res with
      | none =>
        have h1 : s1.pos = src.pos := hrec m src (none, s1) (List.mem_cons_self m tl) hm rfl
        have h2 : s'.pos = s1.pos :=
          ih s1 s' (fun m' s out hmem => hrec m' s out (List.mem_cons_of_mem m hmem)) h
        rw [h2, h1]
      | some v => simp at h

/-- the collected list of `Repeat.match` can only grow. -/
theorem repGo_acc_le (rec : Matcher → Source → Option (Option Value × Source)) :
    ∀ fuel b z mo acc src ms s', repGo rec fuel b z mo acc src = some (ms, s') →
      acc.length ≤ ms.length := by
  intro fuel
  induction fuel with
  | zero => intro b z mo acc src ms s' h; simp [repGo] at h
  | succ n ih =>
    intro b z mo acc src ms s' h
    simp only [repGo] at h
    by_cases hguard : (src.pos == src.len && (z || !acc.isEmpty)) = true
    · rw [if_pos hguard] at h
      simp only [Option.some.injEq, Prod.mk.injEq] at h
      rw [← h.1]
      simp
    · rw [if_neg hguard] at h
      cases hm : rec b src with
      | none => simp only [hm] at h; exact absurd h (by simp)
      | some pr =>
        obtain ⟨res, s1⟩ := pr
        simp only [hm] at h
        cases res with
        | none =>
          simp only [Option.some.injEq, Prod.mk.injEq] at h
          rw [← h.1]
          simp
        | some v =>
          cases mo with
          | false =>
            simp only [Bool.false_eq_true, ite_false, if_false, Option.some.injEq, Prod.mk.injEq] at h
            rw [← h.1]
            simp
          | true =>
            simp only [ite_true, if_true] at h
            have := ih b z true (v :: acc) s1 ms s' h
            simp at this
            omega

/-- if `Repeat.match`'s loop produces no matches, the cursor ends where it
started, provided base failures restore the cursor. -/
theorem repGo_empty_pos (rec : Matcher → Source → Option (Option Value × Source))
    (b : Matcher)
    (hrec : ∀ s out, rec b s = some out → out.1 = none → out.2.pos = s.pos) :
    ∀ fuel z mo acc src s', repGo rec fuel b z mo acc src = some ([], s') → s'.pos = src.pos := by
  intro fuel
  induction fuel with
  | zero => intro z mo acc src s' h; simp [repGo] at h
  | succ n ih =>
    intro z mo acc src s' h
    simp only [repGo] at h
    by_cases hguard : (src.pos == src.len && (z || !acc.isEmpty)) = true
    · rw [if_pos hguard] at h
      simp only [Option.some.injEq, Prod.mk.injEq] at h
      rw [← h.2]
    · rw [if_neg hguard] at h
      cases hm : rec b src with
      | none => simp only [hm] at h; exact absurd h (by simp)
      | some pr =>
        obtain ⟨res, s1⟩ := pr
        simp only [hm] at h
        cases res with
        | none =>
          simp only [Option.some.injEq, Prod.mk.injEq] at h
          rw [← h.2]
          exact hrec src (none, s1) hm rfl
        | some v =>
          cases mo with
          | false =>
            simp only [Bool.false_eq_true, ite_false, if_false, Option.some.injEq, Prod.mk.injEq] at h
            exact absurd h.1 (by simp)
          | true =>
            simp only [ite_true, if_true] at h
            have := repGo_acc_le rec n b z true (v :: acc) s1 [] s' h
            simp at this

theorem matchText_fail_pos (t : String) (sw : Bool) (ws : String) (rx : Rx) (src : Source)
    (h : (matchText t sw ws rx src).1 = none) : (matchText t sw ws rx src).2.pos = src.pos := by
  unfold matchText at h ⊢
  by_cases hc : jsSubstring src.s (src.pos : Int) ((src.pos + t.data.length : Nat) : Int) = t
  · simp only [hc, ite_true, if_pos] at h
    cases sw <;> simp_all
  · simp only [hc, ite_false, if_neg, not_false_iff]
    exact error_pos src _ _

theorem matchRegex_fail_pos (pat : String) (sw : Bool) (ws : String) (rx : Rx) (src : Source)
    (h : (matchRegex pat sw ws rx src).1 = none) : (matchRegex pat sw ws rx src).2.pos = src.pos := by
  unfold matchRegex at h ⊢
  cases hr : rx pat src.s src.pos with
  | none => simp only [hr]; exact error_pos src _ _
  | some pr => simp only [hr] at h; cases sw <;> simp_all

/-- symbol-free matchers restore the cursor exactly when they fail. -/
theorem matchM_restore (g : Grammar) (a : Actions) (rx : Rx) :
    ∀ fuel nf m src out, noSym nf m = true → matchM fuel g a rx m src = some out →
      out.1 = none → out.2.pos = src.pos := by
  intro fuel
  induction fuel with
  | zero => intro nf m src out _ h; exact absurd h (by simp [matchM])
  | succ n ih =>
    intro nf m src out hns h hfail
    cases m with
    | text t sw =>
      simp only [matchM, Option.some.injEq] at h
      rw [← h] at hfail ⊢
      exact matchText_fail_pos t sw g.ws rx src hfail
    | regex pat sw =>
      simp only [matchM, Option.some.injEq] at h
      rw [← h] at hfail ⊢
      exact matchRegex_fail_pos pat sw g.ws rx src hfail
    | symbol nm =>
      cases nf with
      | zero => exact absurd hns (by simp [noSym])
      | succ nf' => exact absurd hns (by simp [noSym])
    | seq items repl =>
      simp only [matchM] at h
      cases hs : seqGo (matchM n g a rx) items src.pos [] src with
      | none => simp only [hs] at h; exact absurd h (by simp)
      | some pr =>
        obtain ⟨res, s'⟩ := pr
        simp only [hs] at h
        cases res with
        | none =>
          simp only [Option.some.injEq] at h
          rw [← h]
          exact seqGo_fail_pos _ items src.pos [] src s' hs
        | some vs =>
          cases hfn : seqFn a items repl with
          | none => simp only [hfn] at h; exact absurd h (by simp)
          | some f =>
            simp only [hfn, Option.some.injEq] at h
            rw [← h] at hfail
            simp at hfail
    | choice ms =>
      cases nf with
      | zero => exact absurd hns (by simp [noSym])
      | succ nf' =>
        simp only [matchM] at h
        simp only [noSym] at hns
        have hmem := bindChkList_mem (noSym nf') ms hns
        have : out.2.pos = src.pos := by
          rcases hout : out with ⟨res, s'⟩
          rw [hout] at hfail
          simp at hfail
          rw [hout] at h
          rw [hfail] at h
          exact chGo_fail_pos _ ms src s'
            (fun m' s o hm hrec hf => ih nf' m' s o (hmem m' hm) hrec hf) h
        exact this
    | rep b z mo =>
      cases nf with
      | zero => exact absurd hns (by simp [noSym])
      | succ nf' =>
        simp only [noSym] at hns
        simp only [matchM] at h
        cases hs : repGo (matchM n g a rx) n b z mo [] src with
        | none => simp only [hs] at h; exact absurd h (by simp)
        | some pr =>
          obtain ⟨ms, s'⟩ := pr
          simp only [hs] at h
          by_cases hc : (!z && ms.isEmpty) = true
          · rw [if_pos hc] at h
            simp only [Option.some.injEq] at h
            rw [← h]
            have hempty : ms = [] := by
              have := (Bool.and_eq_true _ _).mp hc
              exact List.isEmpty_iff.mp this.2
            rw [hempty] at hs
            exact repGo_empty_pos _ b
              (fun s o hrec hf => ih nf' b s o hns hrec hf) n z mo [] src s' hs
          · rw [if_neg hc] at h
            simp only [Option.some.injEq] at h
            rw [← h] at hfail
            simp at hfail
    | pred b nm =>
      cases nf with
      | zero => exact absurd hns (by simp [noSym])
      | succ nf' =>
        simp only [noSym] at hns
        simp only [matchM] at h
        cases hp : a.predicates nm with
        | none => simp only [hp] at h; exact absurd h (by simp)
        | some fn =>
          simp only [hp] at h
          cases hm : matchM n g a rx b src with
          | none => simp only [hm] at h; exact absurd h (by simp)
          | some pr =>
            obtain ⟨res, s'⟩ := pr
            simp only [hm] at h
            cases res with
            | none =>
              simp only [Option.some.injEq] at h
              rw [← h]
              exact ih nf' b src (none, s') hns hm rfl
            | some v =>
              simp only [] at h
              cases he : fn v [] with
              | none =>
                simp only [he, Option.some.injEq] at h
                rw [← h] at hfail
                simp at hfail
              | some e =>
                simp only [he] at h
                by_cases hee : e = ""
                · simp only [hee, if_pos, ite_true, Option.some.injEq] at h
                  rw [← h] at hfail
                  simp at hfail
                · rw [if_neg hee] at h
                  simp only [Option.some.injEq] at h
                  rw [← h]
                  exact error_pos _ _ _

/-- with `multipleOK` false the repeat loop stops after the first success:
at most one element is added to the collected list. -/
theorem repGo_single (rec : Matcher → Source → Option (Option Value × Source)) :
    ∀ fuel b z acc src ms s', repGo rec fuel b z false acc src = some (ms, s') →
      ms.length ≤ acc.length + 1 := by
  intro fuel
  induction fuel with
  | zero => intro b z acc src ms s' h; simp [repGo] at h
  | succ n ih =>
    intro b z acc src ms s' h
    simp only [repGo] at h
    by_cases hguard : (src.pos == src.len && (z || !acc.isEmpty)) = true
    · rw [if_pos hguard] at h
      simp only [Option.some.injEq, Prod.mk.injEq] at h
      rw [← h.1]
      simp
    · rw [if_neg hguard] at h
      cases hm : rec b src with
      | none => simp only [hm] at h; exact absurd h (by simp)
      | some pr =>
        obtain ⟨res, s1⟩ := pr
        simp only [hm] at h
        cases res with
        | none =>
          simp only [Option.some.injEq, Prod.mk.injEq] at h
          rw [← h.1]
          simp
        | some v =>
          simp only [Bool.false_eq_true, ite_false, if_false, Option.some.injEq, Prod.mk.injEq] at h
          rw [← h.1]
          simp

/-- keys of a `VisitSet` update: the updated key or an existing one. -/
theorem visitSet_keys_sub (v : VisitSet) (n : String) (b : Bool) :
    ∀ x ∈ (VisitSet.set v n b).map (fun p => p.1), x ∈ v.map (fun p => p.1) ∨ x = n := by
  intro x hx
  unfold VisitSet.set at hx
  by_cases hc : (v.find? (fun p => p.1 = n)).isSome = true
  · rw [if_pos hc] at hx
    simp only [List.map_map, List.mem_map] at hx
    obtain ⟨p, hp, he⟩ := hx
    by_cases hpn : p.1 = n
    · right
      simp only [Function.comp_apply, hpn, if_pos, ite_true] at he
      exact he.symm
    · left
      simp only [Function.comp_apply, hpn, if_neg, ite_false] at he
      exact he ▸ List.mem_map_of_mem (fun p => p.1) hp
  · rw [if_neg hc] at hx
    simp only [List.map_append, List.mem_append, List.map_cons, List.map_nil] at hx
    rcases hx with h1 | h2
    · exact Or.inl h1
    · right
      simpa using h2

/-- a rule found by name is one of the grammar's rules. -/
theorem find_mem_names (g : Grammar) (n : String) (r : Rule) (h : g.find n = some r) :
    n ∈ g.rules.map (fun p => p.1) := by
  unfold Grammar.find at h
  cases hf : g.rules.find? (fun p => p.1 = n) with
  | none => rw [hf] at h; exact absurd h (by simp)
  | some p =>
    have hp : p ∈ g.rules := List.mem_of_find?_eq_some hf
    have hn : p.1 = n := by
      have := List.find?_some hf
      simpa using this
    exact hn ▸ List.mem_map_of_mem (fun q => q.1) hp

/-- state names stay inside the grammar during the left-recursion walk. -/
def GoodLR (g : Grammar) (s : LRState) : Prop :=
  (∀ x ∈ s.visit.map (fun p => p.1), x ∈ g.rules.map (fun p => p.1)) ∧
  (∀ x ∈ s.fails, x ∈ g.rules.map (fun p => p.1))

theorem lrItems_good (g : Grammar)
    (rec : Matcher → LRState → Option (Bool × LRState))
    (cmnf : Matcher → MatchesNothing)
    (hrec : ∀ m s out, GoodLR g s → rec m s = some out → GoodLR g out.2) :
    ∀ items s out, GoodLR g s → lrItems rec cmnf items s = some out → GoodLR g out.2 := by
  intro items
  induction items with
  | nil =>
    intro s out hg h
    simp only [lrItems, Option.some.injEq] at h
    rw [← h]
    exact hg
  | cons hd tl ih =>
    intro s out hg h
    obtain ⟨m, k⟩ := hd
    simp only [lrItems] at h
    cases hm : rec m s with
    | none => simp only [hm] at h; exact absurd h (by simp)
    | some pr =>
      obtain ⟨res, s'⟩ := pr
      simp only [hm] at h
      have hg' : GoodLR g s' := hrec m s _ hg hm
      cases res with
      | true =>
        simp only [Option.some.injEq] at h
        rw [← h]
        exact hg'
      | false =>
        by_cases hc : cmnf m ≠ .YES
        · simp only [if_pos hc, Option.some.injEq] at h
          rw [← h]
          exact hg'
        · simp only [if_neg hc] at h
          exact ih s' out hg' h

theorem lrList_good (g : Grammar)
    (rec : Matcher → LRState → Option (Bool × LRState))
    (hrec : ∀ m s out, GoodLR g s → rec m s = some out → GoodLR g out.2) :
    ∀ ms s out, GoodLR g s → lrList rec ms s = some out → GoodLR g out.2 := by
  intro ms
  induction ms with
  | nil =>
    intro s out hg h
    simp only [lrList, Option.some.injEq] at h
    rw [← h]
    exact hg
  | cons m tl ih =>
    intro s out hg h
    simp only [lrList] at h
    cases hm : rec m s with
    | none => simp only [hm] at h; exact absurd h (by simp)
    | some pr =>
      obtain ⟨res, s'⟩ := pr
      simp only [hm] at h
      have hg' : GoodLR g s' := hrec m s _ hg hm
      cases res with
      | true =>
        simp only [Option.some.injEq] at h
        rw [← h]
        exact hg'
      | false => exact ih s' out hg' h

theorem lrM_good (g : Grammar) (rx : Rx) (st : String → MatchesNothing) :
    ∀ fuel m s out, GoodLR g s → lrM fuel g rx st m s = some out → GoodLR g out.2 := by
  intro fuel
  induction fuel with
  | zero => intro m s out _ h; simp [lrM] at h
  | succ n ih =>
    intro m s out hg h
    cases m with
    | text t sw =>
      simp only [lrM, Option.some.injEq] at h
      rw [← h]
      exact hg
    | regex p sw =>
      simp only [lrM, Option.some.injEq] at h
      rw [← h]
      exact hg
    | symbol nm =>
      simp only [lrM] at h
      by_cases hv : VisitSet.get s.visit nm = true
      · rw [if_pos hv] at h
        simp only [Option.some.injEq] at h
        rw [← h]
        refine ⟨hg.1, ?_⟩
        intro x hx
        simp only [List.mem_append] at hx
        rcases hx with h1 | h2
        · exact hg.2 x h1
        · exact hg.1 x h2
      · rw [if_neg hv] at h
        by_cases hch : s.isChecked nm = true
        · rw [if_pos hch] at h
          simp only [Option.some.injEq] at h
          rw [← h]
          exact hg
        · rw [if_neg hch] at h
          cases hf : g.find nm with
          | none => simp only [hf] at h; exact absurd h (by simp)
          | some r =>
            simp only [hf] at h
            cases hb : r.matcher with
            | none => simp only [hb] at h; exact absurd h (by simp)
            | some body =>
              simp only [hb] at h
              have hnm : nm ∈ g.rules.map (fun p => p.1) := find_mem_names g nm r hf
              have hg1 : GoodLR g
                  { s with checked := VisitSet.set s.checked nm true,
                           visit := VisitSet.set s.visit nm true } := by
                refine ⟨?_, hg.2⟩
                intro x hx
                rcases visitSet_keys_sub s.visit nm true x hx with h1 | h2
                · exact hg.1 x h1
                · exact h2 ▸ hnm
              cases hm : lrM n g rx st body
                  { s with checked := VisitSet.set s.checked nm true,
                           visit := VisitSet.set s.visit nm true } with
              | none => simp only [hm] at h; exact absurd h (by simp)
              | some pr =>
                obtain ⟨res, s2⟩ := pr
                simp only [hm] at h
                have hg2 : GoodLR g s2 := ih body _ _ hg1 hm
                simp only [Option.some.injEq] at h
                rw [← h]
                refine ⟨?_, hg2.2⟩
                intro x hx
                rcases visitSet_keys_sub s2.visit nm false x hx with h1 | h2
                · exact hg2.1 x h1
                · exact h2 ▸ hnm
    | seq items repl =>
      simp only [lrM] at h
      exact lrItems_good g _ _ (fun m' s' out' => ih m' s' out') items s out hg h
    | choice ms =>
      simp only [lrM] at h
      exact lrList_good g _ (fun m' s' out' => ih m' s' out') ms s out hg h
    | rep b z mo =>
      simp only [lrM] at h
      exact ih b s out hg h
    | pred b nm =>
      simp only [lrM] at h
      exact ih b s out hg h

theorem lrRules_good (g : Grammar) (rx : Rx) (st : String → MatchesNothing) (fuel : Nat) :
    ∀ rs s out, (∀ p ∈ rs, p.1 ∈ g.rules.map (fun q => q.1)) → GoodLR g s →
      lrRules fuel g rx st rs s = some out → GoodLR g out := by
  intro rs
  induction rs with
  | nil =>
    intro s out _ hg h
    simp only [lrRules, Option.some.injEq] at h
    rw [← h]
    exact hg
  | cons hd tl ih =>
    intro s out hmem hg h
    obtain ⟨n, r⟩ := hd
    simp only [lrRules] at h
    by_cases hch : s.isChecked n = true
    · rw [if_pos hch] at h
      exact ih s out (fun p hp => hmem p (List.mem_cons_of_mem _ hp)) hg h
    · rw [if_neg hch] at h
      cases hb : r.matcher with
      | none => simp only [hb] at h; exact absurd h (by simp)
      | some body =>
        simp only [hb] at h
        have hn : n ∈ g.rules.map (fun q => q.1) := hmem (n, r) (List.mem_cons_self _ _)
        have hg1 : GoodLR g { s with checked := VisitSet.set s.checked n true, visit := [(n, true)] } := by
          refine ⟨?_, hg.2⟩
          intro x hx
          simp only [List.map_cons, List.map_nil, List.mem_singleton] at hx
          exact hx ▸ hn
        cases hm : lrM fuel g rx st body
            { s with checked := VisitSet.set s.checked n true, visit := [(n, true)] } with
        | none => simp only [hm] at h; exact absurd h (by simp)
        | some pr =>
          obtain ⟨res, s2⟩ := pr
          simp only [hm] at h
          have hg2 : GoodLR g s2 := lrM_good g rx st fuel body _ _ hg1 hm
          exact ih s2 out (fun p hp => hmem p (List.mem_cons_of_mem _ hp)) hg2 h

/-- every name reported by the left-recursion phase is a rule of the
grammar. -/
theorem lrPhase_names (fuel : Nat) (g : Grammar) (rx : Rx) (st : String → MatchesNothing)
    (fails : List String) (h : lrPhase fuel g rx st = some fails) :
    ∀ x ∈ fails, x ∈ g.rules.map (fun p => p.1) := by
  unfold lrPhase at h
  cases hr : lrRules fuel g rx st g.rules ⟨[], [], []⟩ with
  | none => rw [hr] at h; exact absurd h (by simp)
  | some s =>
    rw [hr] at h
    simp at h
    have hg : GoodLR g s :=
      lrRules_good g rx st fuel g.rules ⟨[], [], []⟩ s
        (fun p hp => List.mem_map_of_mem (fun q => q.1) hp)
        ⟨by simp, by simp⟩ hr
    rw [← h]
    exact hg.2

/-- case analysis of `Grammar.match`: a returned result comes from the
start symbol's match, classified into failure, partial consumption, or
full success. -/
theorem matchTop_cases (fuel : Nat) (g : Grammar) (a : Actions) (rx : Rx) (s : String)
    (pr : MatchResult × Source) (h : matchTop fuel g a rx s = some pr) :
    ∃ nm res s1, g.start = some nm ∧
      matchM fuel g a rx (.symbol nm) (Source.init s) = some (res, s1) ∧
      ((res = none ∧ pr = ({ result := none, error := some s1.message }, s1)) ∨
       (∃ v, res = some v ∧ s1.pos < s1.len ∧
         pr = ({ result := some v,
                 error := some (Source.error s1 "end of input" (-1)).message },
               Source.error s1 "end of input" (-1))) ∨
       (∃ v, res = some v ∧ ¬s1.pos < s1.len ∧
         pr = ({ result := some v, error := none }, s1))) := by
  unfold matchTop at h
  by_cases hb : bindOK fuel a g = true
  · rw [if_pos hb] at h
    cases hst : g.start with
    | none => simp only [hst] at h; exact absurd h (by simp)
    | some nm =>
      simp only [hst] at h
      cases hm : matchM fuel g a rx (.symbol nm) (Source.init s) with
      | none => simp only [hm] at h; exact absurd h (by simp)
      | some p =>
        obtain ⟨res, s1⟩ := p
        simp only [hm] at h
        refine ⟨nm, res, s1, rfl, hm, ?_⟩
        cases res with
        | none =>
          simp only [Option.some.injEq] at h
          exact Or.inl ⟨rfl, h.symm⟩
        | some v =>
          by_cases hp : s1.pos < s1.len
          · simp only [if_pos hp, Option.some.injEq] at h
            exact Or.inr (Or.inl ⟨v, rfl, hp, h.symm⟩)
          · simp only [if_neg hp, Option.some.injEq] at h
            exact Or.inr (Or.inr ⟨v, rfl, hp, h.symm⟩)
  · rw [if_neg hb] at h
    exact absurd h (by simp)

/-! ### Claim theorems -/

/-- C1 (counterexample): on the grammar `main = 'a'` and input "ab" the
start rule matches only a prefix; `match` then returns a NON-null result
TOGETHER WITH a non-null error, contradicting the claimed dichotomy. -/
theorem fp_c1_counterexample :
    (Source.init "ab").pos = 0 ∧
    (matchTop 50 gA acts0 rxImpl "ab").map
      (fun pr => (pr.1.result.isSome, pr.1.error.isSome)) = some (true, true) := by
  exact ⟨rfl, rfl⟩

/-- C1 (amended): whenever `match` returns, either the result is non-null
with a null error, or the result is null with a non-empty error, or — when
the start rule matched a proper prefix of the input — the result is
non-null with a non-empty "expected end of input" error. -/
theorem fp_c1_match_trichotomy (fuel : Nat) (g : Grammar) (a : Actions) (rx : Rx) (s : String)
    (pr : MatchResult × Source) (h : matchTop fuel g a rx s = some pr) :
    (pr.1.result.isSome ∧ pr.1.error = none) ∨
    (pr.1.result = none ∧ ∃ e, pr.1.error = some e ∧ e ≠ "") ∨
    (pr.1.result.isSome ∧ ∃ e, pr.1.error = some e ∧ e ≠ "") := by
  obtain ⟨nm, res, s1, hst, hm, hcase⟩ := matchTop_cases fuel g a rx s pr h
  rcases hcase with ⟨hres, hpr⟩ | ⟨v, hres, hlt, hpr⟩ | ⟨v, hres, hge, hpr⟩
  · refine Or.inr (Or.inl ?_)
    rw [hpr]
    exact ⟨rfl, s1.message, rfl, message_ne_empty s1⟩
  · refine Or.inr (Or.inr ?_)
    rw [hpr]
    exact ⟨rfl, (Source.error s1 "end of input" (-1)).message, rfl,
      message_ne_empty (Source.error s1 "end of input" (-1))⟩
  · refine Or.inl ?_
    rw [hpr]
    exact ⟨rfl, rfl⟩

/-- C1 (witness): the amended trichotomy applied at the concrete full
match of "a" against `main = 'a'`. -/
theorem fp_c1_witness :
    matchTop 50 gA acts0 rxImpl "a" =
      some ({ result := some (.list []), error := none }, ⟨"a", 1, 1, [], -1⟩) ∧
    (((some (Value.list []) : Option Value).isSome ∧ (none : Option String) = none) ∨
     ((some (Value.list []) : Option Value) = none ∧ ∃ e, (none : Option String) = some e ∧ e ≠ "") ∨
     ((some (Value.list []) : Option Value).isSome ∧ ∃ e, (none : Option String) = some e ∧ e ≠ "")) :=
  ⟨rfl, fp_c1_match_trichotomy 50 gA acts0 rxImpl "a"
    ({ result := some (.list []), error := none }, ⟨"a", 1, 1, [], -1⟩) rfl⟩

/-- C2 (code bug): on the repository's own test grammar
`main = word word:same  word <a word> = /[a-z]+/` with input "one one", the
engine calls the bound predicate with an EMPTY prior-kept-values list: a
predicate that rejects exactly when that list is empty makes the match
fail, while a predicate that rejects exactly when the list is non-empty
lets it succeed.  The repository's test (and its README) expect the
predicate to receive the previously kept values of the enclosing
sequence. -/
theorem fp_c2_predicate_prior_values :
    (matchTop 100 gSame actsNeedPrior rxImpl "one one").map
      (fun pr => pr.1.result.isSome) = some false ∧
    (matchTop 100 gSame actsRejectPrior rxImpl "one one").map
      (fun pr => (pr.1.result.isSome, pr.1.error.isSome)) = some (true, false) := by
  exact ⟨rfl, rfl⟩

/-- C3 (code bug): the grammar `main = (a* 'y')+   a = 'x'?` has, inside
the body of `main`, the Repeat `a*` whose base (the nullable rule `a`) can
match nothing — yet `check` accepts the grammar, because
`Repeat.hasEmptyRepeat` never looks inside its own base.  (Matching "y"
against this grammar loops forever at runtime.) -/
theorem fp_c3_nested_empty_repeat_accepted :
    cmnM 20 rxImpl ((finalNull 50 rxImpl gNest).get) (.symbol "a") = .YES ∧
    herM 50 rxImpl ((finalNull 50 rxImpl gNest).get) (.rep (.symbol "a") true true) = true ∧
    check 50 rxImpl gNest = some none := by
  exact ⟨rfl, rfl, rfl⟩

/-- C4 (counterexample): the grammar `a = b 'x' | a 'y'   b = 'z'` has a
left-recursive cycle consisting of `a` alone, and `b` (a plain literal
rule that references no symbol at all) is in no cycle — yet the diagnostic
lists both `a` and `b`, because the walk reports every key ever added to
its visit set, including fully explored ones. -/
theorem fp_c4_counterexample :
    check 50 rxImpl gLR =
      some (some "The rules for a and b contain left-recursion which would cause a stack overflow during parsing") ∧
    gLR.find "b" = some ⟨some (.seq [(.text "z" true, false)] ""), none, true⟩ := by
  exact ⟨rfl, rfl⟩

/-- C4 (amended): when the left-recursion walk reports a non-empty failure
list (and the earlier phases pass), compilation fails with the
Oxford-comma "and" message listing exactly that list — the rules recorded
on the walk's visit set, all of which are rules of the grammar; this list
contains the detected cycle's rules but can also contain other visited
rules. -/
theorem fp_c4_lr_reporting (fuel : Nat) (rx : Rx) (g : Grammar) (fails : List String)
    (hst : g.start.isSome = true) (hud : undefNames g = [])
    (hlr : lrPhase fuel g rx ((finalNull fuel rx g).get) = some fails)
    (hne : fails ≠ []) :
    check fuel rx g = some (some (lrMsg fails)) ∧
    ∀ x ∈ fails, x ∈ g.rules.map (fun p => p.1) := by
  constructor
  · unfold check
    cases hs : g.start with
    | none => rw [hs] at hst; exact absurd hst (by simp)
    | some nm =>
      simp only [hud, List.isEmpty_nil, Bool.not_true, Bool.false_eq_true, if_false, ite_false,
        hlr]
      have : fails.isEmpty = false := by
        cases fails with
        | nil => exact absurd rfl hne
        | cons a b => rfl
      simp only [this, Bool.not_false, if_true, ite_true]
  · exact lrPhase_names fuel g rx _ fails hlr

/-- C4 (witness): the amended statement applied to the repository's own
test grammar `main = sub1 h?   sub1 = main   h = 'hello'`. -/
theorem fp_c4_witness :
    check 50 rxImpl gLR2 = some (some (lrMsg ["main", "sub1"])) ∧
    "sub1" ∈ gLR2.rules.map (fun p => p.1) :=
  ⟨(fp_c4_lr_reporting 50 rxImpl gLR2 ["main", "sub1"] rfl rfl rfl (by simp)).1,
   (fp_c4_lr_reporting 50 rxImpl gLR2 ["main", "sub1"] rfl rfl rfl (by simp)).2
     "sub1" (by simp)⟩

/-- C5 (counterexample): a Symbol whose rule skips whitespace can return
the NO_MATCH sentinel with the cursor moved: matching the rule
`r = 'a'` against " x" fails but leaves the cursor at 1, past the skipped
space, not at its pre-call value 0. -/
theorem fp_c5_counterexample :
    (Source.init " x").pos = 0 ∧
    (matchM 20 gWS acts0 rxImpl (.symbol "r") (Source.init " x")).map
      (fun out => (out.1.isSome, out.2.pos)) = some (false, 1) := by
  exact ⟨rfl, rfl⟩

/-- C5 (amended): every symbol-free matcher restores the cursor exactly
when it returns NO_MATCH, and a Sequence restores the cursor on failure
whatever its items are; a failing Symbol, however, leaves the cursor
wherever entry whitespace-skipping put it. -/
theorem fp_c5_cursor_restore :
    (∀ (g : Grammar) (a : Actions) (rx : Rx) (fuel nf : Nat) (m : Matcher) (src : Source) out,
      noSym nf m = true → matchM fuel g a rx m src = some out →
      out.1 = none → out.2.pos = src.pos) ∧
    (∀ (g : Grammar) (a : Actions) (rx : Rx) (fuel : Nat) items repl (src s' : Source),
      matchM fuel g a rx (.seq items repl) src = some (none, s') → s'.pos = src.pos) := by
  constructor
  · exact fun g a rx fuel nf m src out => matchM_restore g a rx fuel nf m src out
  · intro g a rx fuel items repl src s' h
    cases fuel with
    | zero => exact absurd h (by simp [matchM])
    | succ n =>
      simp only [matchM] at h
      cases hs : seqGo (matchM n g a rx) items src.pos [] src with
      | none => simp only [hs] at h; exact absurd h (by simp)
      | some pr =>
        obtain ⟨res, s1⟩ := pr
        simp only [hs] at h
        cases res with
        | none =>
          simp only [Option.some.injEq, Prod.mk.injEq] at h
          rw [← h.2]
          exact seqGo_fail_pos _ items src.pos [] src s1 hs
        | some vs =>
          cases hfn : seqFn a items repl with
          | none => simp only [hfn] at h; exact absurd h (by simp)
          | some f =>
            simp only [hfn, Option.some.injEq, Prod.mk.injEq] at h
            exact absurd h.1 (by simp)

/-- C5 (witness): the amended statement at a concrete failing Text matcher
(`'q'` against "ab"). -/
theorem fp_c5_witness :
    noSym 3 (.text "q" true) = true ∧
    matchM 5 gA acts0 rxImpl (.text "q" true) (Source.init "ab") =
      some (none, ⟨"ab", 2, 0, ["'q'"], 0⟩) ∧
    (⟨"ab", 2, 0, ["'q'"], 0⟩ : Source).pos = (Source.init "ab").pos :=
  ⟨rfl, rfl,
   fp_c5_cursor_restore.1 gA acts0 rxImpl 5 3 (.text "q" true) (Source.init "ab")
     (none, ⟨"ab", 2, 0, ["'q'"], 0⟩) rfl rfl rfl⟩

/-- C6: `Repeat.match` is exactly the described loop: it stops at end of
input once zeroOK holds or a match was collected, stops when the base
fails, stops after the first success when multipleOK is false; the overall
match returns NO_MATCH iff zeroOK is false and nothing was collected, and
otherwise returns the collected list. -/
theorem fp_c6_repeat_loop :
    (∀ (g : Grammar) (a : Actions) (rx : Rx) (fuel : Nat) b z mo (src : Source) out,
      matchM (fuel + 1) g a rx (.rep b z mo) src = some out →
      ∃ ms s', repGo (matchM fuel g a rx) fuel b z mo [] src = some (ms, s') ∧
        out.2 = s' ∧ (out.1 = none ↔ (z = false ∧ ms = [])) ∧
        (∀ v, out.1 = some v → v = .list ms) ∧
        (mo = false → ms.length ≤ 1)) ∧
    (∀ rec fuel b z mo acc (src : Source),
      (src.pos == src.len && (z || !acc.isEmpty)) = true →
      repGo rec (fuel + 1) b z mo acc src = some (acc.reverse, src)) ∧
    (∀ rec fuel b z mo acc (src s' : Source),
      ¬((src.pos == src.len && (z || !acc.isEmpty)) = true) →
      rec b src = some (none, s') →
      repGo rec (fuel + 1) b z mo acc src = some (acc.reverse, s')) ∧
    (∀ rec fuel b z acc (src : Source) v s',
      ¬((src.pos == src.len && (z || !acc.isEmpty)) = true) →
      rec b src = some (some v, s') →
      repGo rec (fuel + 1) b z false acc src = some ((v :: acc).reverse, s')) ∧
    (∀ rec fuel b z acc (src : Source) v s',
      ¬((src.pos == src.len && (z || !acc.isEmpty)) = true) →
      rec b src = some (some v, s') →
      repGo rec (fuel + 1) b z true acc src = repGo rec fuel b z true (v :: acc) s') := by
  refine ⟨?_, ?_, ?_, ?_, ?_⟩
  · intro g a rx fuel b z mo src out h
    simp only [matchM] at h
    cases hs : repGo (matchM fuel g a rx) fuel b z mo [] src with
    | none => simp only [hs] at h; exact absurd h (by simp)
    | some pr =>
      obtain ⟨ms, s'⟩ := pr
      simp only [hs] at h
      refine ⟨ms, s', rfl, ?_⟩
      by_cases hc : (!z && ms.isEmpty) = true
      · simp only [hc, if_true, ite_true, Option.some.injEq] at h
        have hc' : (!z) = true ∧ ms.isEmpty = true := by simpa using hc
        have hz : z = false := by
          cases z
          · rfl
          · exact absurd hc'.1 (by simp)
        have hms : ms = [] := List.isEmpty_iff.mp hc'.2
        rw [← h]
        refine ⟨rfl, ?_, ?_, ?_⟩
        · simp [hz, hms]
        · intro v hv; exact absurd hv (by simp)
        · intro hmo
          rw [hms]
          simp
      · simp only [hc, if_false, ite_false, Bool.false_eq_true, Option.some.injEq] at h
        rw [← h]
        refine ⟨rfl, ?_, ?_, ?_⟩
        · simp only [Option.some.injEq]
          constructor
          · intro hcon; exact absurd hcon (by simp)
          · intro ⟨hz, hms⟩
            rw [hz, hms] at hc
            exact absurd rfl hc
        · intro v hv
          simp only [Option.some.injEq] at hv
          exact hv.symm
        · intro hmo
          rw [hmo] at hs
          exact repGo_single _ fuel b z [] src ms s' hs
  · intro rec fuel b z mo acc src hguard
    simp only [repGo, if_pos hguard]
  · intro rec fuel b z mo acc src s' hguard hbase
    simp only [repGo, if_neg hguard, hbase]
  · intro rec fuel b z acc src v s' hguard hbase
    simp only [repGo, if_neg hguard, hbase, Bool.false_eq_true, ite_false]
  · intro rec fuel b z acc src v s' hguard hbase
    simp only [repGo, if_neg hguard, hbase, ite_true]

/-- C6 (witness): the loop characterisation at the concrete Repeat
`'q'+` failing at the start of "ab". -/
theorem fp_c6_witness :
    ∃ ms s', repGo (matchM 9 gA acts0 rxImpl) 9 (.text "q" true) false true [] (Source.init "ab") =
        some (ms, s') ∧
      ((none, ⟨"ab", 2, 0, ["'q'"], 0⟩) : Option Value × Source).2 = s' ∧
      (((none, ⟨"ab", 2, 0, ["'q'"], 0⟩) : Option Value × Source).1 = none ↔
        (false = false ∧ ms = [])) ∧
      (∀ v, ((none, ⟨"ab", 2, 0, ["'q'"], 0⟩) : Option Value × Source).1 = some v →
        v = .list ms) ∧
      (true = false → ms.length ≤ 1) :=
  fp_c6_repeat_loop.1 gA acts0 rxImpl 9 (.text "q" true) false true (Source.init "ab")
    (none, ⟨"ab", 2, 0, ["'q'"], 0⟩) rfl

/-- C7: `Source.error` is exactly the described furthest-failure update —
ahead of the record: clear, move, push; at the record: optionally truncate
to `keep`, then push; behind the record: no change — and the recorded
position never decreases, neither across `error` nor across any engine
step. -/
theorem fp_c7_furthest_failure :
    (∀ (src : Source) (what : String) (keep : Int), (src.pos : Int) > src.errPos →
      Source.error src what keep = { src with err := [what], errPos := (src.pos : Int) }) ∧
    (∀ (src : Source) (what : String) (keep : Int), (src.pos : Int) = src.errPos → keep ≥ 0 →
      Source.error src what keep = { src with err := src.err.take keep.toNat ++ [what] }) ∧
    (∀ (src : Source) (what : String) (keep : Int), (src.pos : Int) = src.errPos → keep < 0 →
      Source.error src what keep = { src with err := src.err ++ [what] }) ∧
    (∀ (src : Source) (what : String) (keep : Int), (src.pos : Int) < src.errPos →
      Source.error src what keep = src) ∧
    (∀ (src : Source) (what : String) (keep : Int),
      src.errPos ≤ (Source.error src what keep).errPos) ∧
    (∀ (g : Grammar) (a : Actions) (rx : Rx) (fuel : Nat) (m : Matcher) (src : Source) out,
      matchM fuel g a rx m src = some out → src.errPos ≤ out.2.errPos) := by
  refine ⟨?_, ?_, ?_, ?_, ?_, ?_⟩
  · intro src what keep h
    unfold Source.error
    rw [if_pos (le_of_lt h), if_pos h]
  · intro src what keep heq hk
    unfold Source.error
    rw [if_pos (ge_of_eq heq), if_neg (by omega), if_pos hk]
  · intro src what keep heq hk
    unfold Source.error
    rw [if_pos (ge_of_eq heq), if_neg (by omega), if_neg (by omega)]
  · intro src what keep h
    unfold Source.error
    rw [if_neg (by omega)]
  · intro src what keep
    exact (SInv_error src what keep).2.2
  · intro g a rx fuel m src out h
    exact (matchM_SInv g a rx fuel m src out h).2.2

/-- C7 (witness): the cases and the engine monotonicity at concrete
inputs. -/
theorem fp_c7_witness :
    Source.error ⟨"ab", 2, 1, [], -1⟩ "q" (-1) = ⟨"ab", 2, 1, ["q"], 1⟩ ∧
    Source.error ⟨"ab", 2, 1, ["q"], 1⟩ "r" 0 = ⟨"ab", 2, 1, ["r"], 1⟩ ∧
    Source.error ⟨"ab", 2, 0, ["q"], 1⟩ "r" (-1) = ⟨"ab", 2, 0, ["q"], 1⟩ ∧
    ((-1 : Int) ≤ (⟨"ab", 2, 0, ["'q'"], 0⟩ : Source).errPos) :=
  ⟨fp_c7_furthest_failure.1 ⟨"ab", 2, 1, [], -1⟩ "q" (-1) (by decide),
   fp_c7_furthest_failure.2.1 ⟨"ab", 2, 1, ["q"], 1⟩ "r" 0 (by decide) (by decide),
   fp_c7_furthest_failure.2.2.2.1 ⟨"ab", 2, 0, ["q"], 1⟩ "r" (-1) (by decide),
   fp_c7_furthest_failure.2.2.2.2.2 gA acts0 rxImpl 5 (.text "q" true) (Source.init "ab")
     (none, ⟨"ab", 2, 0, ["'q'"], 0⟩) rfl⟩

/-- C8 (code bug): the DSL lexer's REGEX conversion uses a string-pattern
`replace`, which rewrites only the FIRST "(": lexing "/(a)(b)/" yields
the token value "(?:a)(b)", whose second capturing group is untouched
(the claim, the module's own header comment and the spec say every
capturing group is converted). -/
theorem fp_c8_regex_first_paren_only :
    (lexNext (lexInit "/(a)(b)/")).1 = ⟨.REGEX, "(?:a)(b)", 0⟩ := by
  exact rfl

/-- C10: `parser.error` is only well-defined after a `match`: on a freshly
created parser the stored last-source reference is unset and the call
fails, while after any completed `match` the stored source is the one just
created for that input and `error` formats against it. -/
theorem fp_c10_error_needs_match :
    (∀ (msg : String) (pos : Int), grammarErrorCall freshLastSrc msg pos = none) ∧
    (∀ (fuel : Nat) (g : Grammar) (a : Actions) (rx : Rx) (s : String) r (src' : Source),
      matchTop fuel g a rx s = some (r, src') →
      src'.s = s ∧
      ∀ (msg : String) (pos : Int),
        grammarErrorCall (some src') msg pos = some (errorMessage msg s pos)) := by
  constructor
  · intro msg pos
    rfl
  · intro fuel g a rx s r src' h
    obtain ⟨nm, res, s1, hst, hm, hcase⟩ := matchTop_cases fuel g a rx s (r, src') h
    have hs1 : s1.s = s := by
      have := (matchM_SInv g a rx fuel _ _ _ hm).1
      simpa [Source.init] using this
    have hsrc : src'.s = s := by
      rcases hcase with ⟨-, hpr⟩ | ⟨v, -, -, hpr⟩ | ⟨v, -, -, hpr⟩
      · have : src' = s1 := congrArg Prod.snd hpr
        rw [this]; exact hs1
      · have : src' = Source.error s1 "end of input" (-1) := congrArg Prod.snd hpr
        rw [this, (SInv_error s1 "end of input" (-1)).1]
        exact hs1
      · have : src' = s1 := congrArg Prod.snd hpr
        rw [this]; exact hs1
    refine ⟨hsrc, ?_⟩
    intro msg pos
    simp only [grammarErrorCall, Source.customMessage, hsrc]

/-- C10 (witness): a fresh parser's `error` fails; after matching "a"
against `main = 'a'` it formats against that input. -/
theorem fp_c10_witness :
    grammarErrorCall freshLastSrc "oops" 0 = none ∧
    grammarErrorCall (some ⟨"a", 1, 1, [], -1⟩) "oops" 0 = some (errorMessage "oops" "a" 0) :=
  ⟨fp_c10_error_needs_match.1 "oops" 0,
   (fp_c10_error_needs_match.2 50 gA acts0 rxImpl "a"
     { result := some (.list []), error := none } ⟨"a", 1, 1, [], -1⟩ rfl).2 "oops" 0⟩

theorem itemFin_keep (keep : Option Bool) (m1 : Matcher) (t3 : Tok) (l5 : LexSt)
    (m : Matcher) (k : Bool) (h : (itemFin keep m1 t3 l5).1 = some (m, k)) :
    k = keep.getD m.keep := by
  unfold itemFin at h
  by_cases hc : t3.kind = .CHAR ∧ t3.value = ":"
  · rcases hlex : lexNext l5 with ⟨t4, l6⟩
    simp only [if_pos hc, hlex] at h
    by_cases hs : t4.kind ≠ .SYMBOL
    · simp only [if_pos hs] at h; exact absurd h (by simp)
    · simp only [if_neg hs, Option.some.injEq, Prod.mk.injEq] at h
      rw [← h.1, ← h.2]
  · simp only [if_neg hc, Option.some.injEq, Prod.mk.injEq] at h
    rw [← h.1, ← h.2]

theorem itemTail_keep (keep : Option Bool) (m0 : Matcher) (l3 : LexSt)
    (m : Matcher) (k : Bool) (h : (itemTail keep m0 l3).1 = some (m, k)) :
    k = keep.getD m.keep := by
  unfold itemTail at h
  rcases hlex : lexNext l3 with ⟨t2, l4⟩
  simp only [hlex] at h
  by_cases h1 : t2.kind = .CHAR ∧ t2.value = "*"
  · rcases hlex2 : lexNext l4 with ⟨t', l'⟩
    simp only [if_pos h1, hlex2] at h
    exact itemFin_keep keep _ t' l' m k h
  · by_cases h2 : t2.kind = .CHAR ∧ t2.value = "+"
    · rcases hlex2 : lexNext l4 with ⟨t', l'⟩
      simp only [if_neg h1, if_pos h2, hlex2] at h
      exact itemFin_keep keep _ t' l' m k h
    · by_cases h3 : t2.kind = .CHAR ∧ t2.value = "?"
      · rcases hlex2 : lexNext l4 with ⟨t', l'⟩
        simp only [if_neg h1, if_neg h2, if_pos h3, hlex2] at h
        exact itemFin_keep keep _ t' l' m k h
      · simp only [if_neg h1, if_neg h2, if_neg h3] at h
        exact itemFin_keep keep m0 t2 l4 m k h

/-- C9 (counterexample): parsing the DSL item `'x':p` yields a
Predicate-kind item whose keep flag defaults to FALSE (the Text default,
through `Predicate.keep`'s delegation to its base), not to the claimed
true-for-every-non-Text-kind. -/
theorem fp_c9_counterexample :
    (parseF 20 .pItem true ⟨[], none, wsPat⟩ (lexInit "'x':p")).map
      (fun r => match r.1 with
        | .iOpt (some (.pred (.text t sw) n, k)) => some (t, sw, n, k)
        | _ => none) = some (some ("x", true, "p", false)) := by
  exact rfl

/-- C9 (amended): the default keep flag is false for Text, true for Regex,
Symbol, Sequence, Choice and Repeat, and for Predicate it is the default
of its base; in `parseItem`, a leading `!` forces keep, a leading `-`
forces skip, and otherwise the item's keep is the final matcher's own
default. -/
theorem fp_c9_keep_resolution :
    (∀ t sw, Matcher.keep (.text t sw) = false) ∧
    (∀ pat sw, Matcher.keep (.regex pat sw) = true) ∧
    (∀ n, Matcher.keep (.symbol n) = true) ∧
    (∀ items repl, Matcher.keep (.seq items repl) = true) ∧
    (∀ ms, Matcher.keep (.choice ms) = true) ∧
    (∀ b z mo, Matcher.keep (.rep b z mo) = true) ∧
    (∀ b n, Matcher.keep (.pred b n) = Matcher.keep b) ∧
    (∀ (fuel : Nat) (sw : Bool) (g : Grammar) (l : LexSt) (m : Matcher) (k : Bool)
        (g' : Grammar) (l' : LexSt),
      parseF (fuel + 1) .pItem sw g l = some (.iOpt (some (m, k)), g', l') →
      k = (if (lexNext l).1.kind = .CHAR ∧ (lexNext l).1.value = "!" then true
           else if (lexNext l).1.kind = .CHAR ∧ (lexNext l).1.value = "-" then false
           else m.keep)) := by
  refine ⟨fun t sw => rfl, fun pat sw => rfl, fun n => rfl, fun items repl => rfl,
    fun ms => rfl, fun b z mo => rfl, fun b n => rfl, ?_⟩
  intro fuel sw g l m k g' l' h
  rcases hlex : lexNext l with ⟨t, l1⟩
  simp only [parseF, hlex] at h
  simp only [hlex]
  by_cases h1 : t.kind = .CHAR ∧ t.value = "!"
  · simp only [if_pos h1] at h ⊢
    cases hpm : parseF fuel .pMatcher sw g l1 with
    | none => simp only [hpm] at h; exact absurd h (by simp)
    | some tr =>
      obtain ⟨pres, g2, l3⟩ := tr
      simp only [hpm] at h
      cases pres with
      | mOpt mo =>
        cases mo with
        | none => simp at h
        | some m0 =>
          simp only [Option.some.injEq, Prod.mk.injEq, PRes.iOpt.injEq] at h
          have hfin : (itemTail (some true) m0 l3).1 = some (m, k) := h.1
          have := itemTail_keep (some true) m0 l3 m k hfin
          simpa using this
      | iOpt i => simp at h
      | its lst => simp at h
  · by_cases h2 : t.kind = .CHAR ∧ t.value = "-"
    · simp only [if_neg h1, if_pos h2] at h ⊢
      cases hpm : parseF fuel .pMatcher sw g l1 with
      | none => simp only [hpm] at h; exact absurd h (by simp)
      | some tr =>
        obtain ⟨pres, g2, l3⟩ := tr
        simp only [hpm] at h
        cases pres with
        | mOpt mo =>
          cases mo with
          | none => simp at h
          | some m0 =>
            simp only [Option.some.injEq, Prod.mk.injEq, PRes.iOpt.injEq] at h
            have hfin : (itemTail (some false) m0 l3).1 = some (m, k) := h.1
            have := itemTail_keep (some false) m0 l3 m k hfin
            simpa using this
        | iOpt i => simp at h
        | its lst => simp at h
    · simp only [if_neg h1, if_neg h2] at h ⊢
      cases hpm : parseF fuel .pMatcher sw g (lexPush l1 t) with
      | none => simp only [hpm] at h; exact absurd h (by simp)
      | some tr =>
        obtain ⟨pres, g2, l3⟩ := tr
        simp only [hpm] at h
        cases pres with
        | mOpt mo =>
          cases mo with
          | none => simp at h
          | some m0 =>
            simp only [Option.some.injEq, Prod.mk.injEq, PRes.iOpt.injEq] at h
            have hfin : (itemTail none m0 l3).1 = some (m, k) := h.1
            have := itemTail_keep none m0 l3 m k hfin
            simpa using this
        | iOpt i => simp at h
        | its lst => simp at h

/-- C9 (witness): the resolution rule at the concrete item `!'x'` — the
`!` prefix forces keep on a Text matcher. -/
theorem fp_c9_witness :
    parseF 20 .pItem true ⟨[], none, wsPat⟩ (lexInit "!'x'") =
      some (.iOpt (some (.text "x" true, true)),
        ⟨[], none, wsPat⟩,
        ⟨"!'x'".data, 4, [⟨.EOF, "", 4⟩], none⟩) ∧
    (true = if (lexNext (lexInit "!'x'")).1.kind = .CHAR ∧ (lexNext (lexInit "!'x'")).1.value = "!"
            then true
            else if (lexNext (lexInit "!'x'")).1.kind = .CHAR ∧
                    (lexNext (lexInit "!'x'")).1.value = "-" then false
            else Matcher.keep (.text "x" true)) :=
  ⟨rfl, fp_c9_keep_resolution.2.2.2.2.2.2.2 19 true ⟨[], none, wsPat⟩ (lexInit "!'x'")
    (.text "x" true) true ⟨[], none, wsPat⟩ ⟨"!'x'".data, 4, [⟨.EOF, "", 4⟩], none⟩ rfl⟩
